import Mathlib

/-!
Shallow embedding of the Solana HTTP service in `src/main.rs`: request
validation helpers, the suspicious-text filter, base58/base64 codecs,
public-key parsing, and the seven request handlers.  Rust strings are
modelled as `List Char`; Rust `u64`/`u8` values as `Nat` (with explicit
range hypotheses where the claims need them); fallible operations as
`Option`/`Except`.  External-SDK operations (key derivation, Ed25519
signing/verification, instruction construction) are modelled from the
spec, as marked on each definition.
-/

namespace SolSvc

/-- Rust `&str` / `String`, modelled as a list of unicode scalar values. -/
abbrev Str := List Char

/-- Convenience: the character list of a Lean string literal. -/
def str (s : String) : Str := s.data

/-- Rust `char::is_whitespace` (the Unicode White_Space property). -/
def is_rust_whitespace (c : Char) : Bool :=
  let n := c.toNat
  (9 ≤ n && n ≤ 13) || n == 32 || n == 133 || n == 160 || n == 5760 ||
  (8192 ≤ n && n ≤ 8202) || n == 8232 || n == 8233 || n == 8239 || n == 8287 || n == 12288

/-- Rust `char::is_control` (the Unicode Cc category). -/
def is_control_char (c : Char) : Bool :=
  let n := c.toNat
  n ≤ 31 || (127 ≤ n && n ≤ 159)

/-- ASCII alphanumeric test (used only in proofs about codec outputs). -/
def is_alnum_ascii (c : Char) : Bool :=
  let n := c.toNat
  (48 ≤ n && n ≤ 57) || (65 ≤ n && n ≤ 90) || (97 ≤ n && n ≤ 122)

/-- Rust `str::to_lowercase`, restricted to ASCII case mapping (every
denylist pattern below is ASCII, and all codec outputs are ASCII). -/
def to_lower_ascii (c : Char) : Char :=
  let n := c.toNat
  if 65 ≤ n && n ≤ 90 then Char.ofNat (n + 32) else c

def to_lower_str (s : Str) : Str := s.map to_lower_ascii

/-- Rust `str::trim`: drop Unicode whitespace from both ends. -/
def trim (s : Str) : Str :=
  ((s.dropWhile is_rust_whitespace).reverse.dropWhile is_rust_whitespace).reverse

/-- Number of bytes of the UTF-8 encoding of `c` (Rust `str::len` counts bytes). -/
def char_utf8_size (c : Char) : Nat :=
  if c.toNat < 128 then 1 else if c.toNat < 2048 then 2
  else if c.toNat < 65536 then 3 else 4

/-- Rust `str::len`: byte length of the UTF-8 encoding. -/
def utf8_len (s : Str) : Nat := (s.map char_utf8_size).sum

/-- Rust `str::starts_with` on explicit character lists. -/
def starts_with : Str → Str → Bool
  | [], _ => true
  | _ :: _, [] => false
  | p :: ps, c :: cs => p == c && starts_with ps cs

/-- Rust `str::contains` with a string pattern: substring test. -/
def has_substr (p : Str) : Str → Bool
  | [] => p.isEmpty
  | c :: cs => starts_with p (c :: cs) || has_substr p cs

/-- The fixed denylist from `is_suspicious_text` in `src/main.rs`. -/
def suspicious_patterns : List Str :=
  [str "drop table", str "delete from", str "insert into", str "update set",
   str "union select", str "' or '", str "\" or \"", str "; --", str "/*", str "*/",
   str "<script", str "</script", str "javascript:", str "data:", str "vbscript:",
   str "onload=", str "onerror=", str "onclick=", str "../", str "..\\"]

/-- `is_suspicious_text` from `src/main.rs` (lines 71-104). -/
def is_suspicious_text (s : Str) : Bool :=
  let t := trim s
  if t.isEmpty then true
  else if 1000 < utf8_len t then true
  else if t.contains '\x00' ||
      t.any (fun c => is_control_char c && !(c == '\n') && !(c == '\r') && !(c == '\t')) then true
  else
    let lower_s := to_lower_str t
    suspicious_patterns.any (fun p => has_substr p lower_s)

/-! ### Positional base-conversion helpers

`Nat.digits` in Mathlib is defined by well-founded recursion and does not
reduce in the kernel; `nat_digits` below is an extensionally equal,
fuel-driven structural version (the fuel bound `n + 1` always suffices). -/

def nat_digits_aux (b : Nat) : Nat → Nat → List Nat
  | 0, _ => []
  | fuel + 1, n => if n = 0 then [] else n % b :: nat_digits_aux b fuel (n / b)

/-- Little-endian base-`b` digits of `n` (minimal representation). -/
def nat_digits (b n : Nat) : List Nat := nat_digits_aux b (n + 1) n

/-- Value of a little-endian digit list. -/
def of_digits (b : Nat) : List Nat → Nat
  | [] => 0
  | d :: ds => d + b * of_digits b ds

/-- First index of `c` in a character list. -/
def idx_of (c : Char) : Str → Option Nat
  | [] => none
  | a :: as => if a == c then some 0 else (idx_of c as).map (· + 1)

/-- `Option`-valued map over a list, failing if any element fails. -/
def list_map_opt (f : α → Option β) : List α → Option (List β)
  | [] => some []
  | a :: as =>
    match f a with
    | none => none
    | some b => (list_map_opt f as).map (b :: ·)

/-! ### base58 (modelled from the spec: the external SDK's base58 codec, §6) -/

def b58_alphabet : Str := str "123456789ABCDEFGHJKLMNPQRSTUVWXYZabcdefghijkmnopqrstuvwxyz"

def b58_index (c : Char) : Option Nat := idx_of c b58_alphabet

def b58_char (d : Nat) : Char := b58_alphabet.getD d '?'

/-- Count of leading zero entries of a list of numbers. -/
def lead_zeros (l : List Nat) : Nat := (l.takeWhile (· == 0)).length

/-- Big-endian value of a byte string. -/
def bytes_to_nat (bs : List Nat) : Nat := of_digits 256 bs.reverse

/-- Modelled from the spec: the external SDK's base58 encoder (`bs58::encode`).
Leading zero bytes become leading `'1'` characters; the remaining value is
written in big-endian base 58. -/
def b58_encode (bs : List Nat) : Str :=
  List.replicate (lead_zeros bs) '1' ++ (nat_digits 58 (bytes_to_nat bs)).reverse.map b58_char

/-- Modelled from the spec: the external SDK's base58 decoder
(`bs58::decode(..).into_vec()`).  Fails on any non-alphabet character. -/
def b58_decode (s : Str) : Option (List Nat) :=
  (list_map_opt b58_index s).map fun ds =>
    List.replicate (lead_zeros ds) 0 ++ (nat_digits 256 (of_digits 58 ds.reverse)).reverse

/-- Modelled from the spec: the external SDK's `Pubkey::from_str`:
reject strings longer than 44 characters, base58-decode, and require
exactly 32 bytes. -/
def pubkey_from_str (s : Str) : Option (List Nat) :=
  if 44 < s.length then none
  else
    match b58_decode s with
    | none => none
    | some bs => if bs.length = 32 then some bs else none

/-! ### base64 (modelled from the spec: the external SDK's base64 codec, §6) -/

def b64_alphabet : Str := str "ABCDEFGHIJKLMNOPQRSTUVWXYZabcdefghijklmnopqrstuvwxyz0123456789+/"

def b64_index (c : Char) : Option Nat := idx_of c b64_alphabet

def b64_char (d : Nat) : Char := b64_alphabet.getD d '?'

/-- Modelled from the spec: the external SDK's standard (padded) base64
encoder (`general_purpose::STANDARD.encode`). -/
def b64_encode : List Nat → Str
  | b1 :: b2 :: b3 :: rest =>
    b64_char (b1 / 4) :: b64_char (b1 % 4 * 16 + b2 / 16) ::
    b64_char (b2 % 16 * 4 + b3 / 64) :: b64_char (b3 % 64) :: b64_encode rest
  | [b1, b2] => [b64_char (b1 / 4), b64_char (b1 % 4 * 16 + b2 / 16), b64_char (b2 % 16 * 4), '=']
  | [b1] => [b64_char (b1 / 4), b64_char (b1 % 4 * 16), '=', '=']
  | [] => []

/-- Modelled from the spec: the external SDK's standard base64 decoder
(`general_purpose::STANDARD.decode`): groups of four characters, padding
only at the end, canonical (zero) trailing bits required. -/
def b64_decode_groups : Str → Option (List Nat)
  | [] => some []
  | c1 :: c2 :: c3 :: c4 :: rest =>
    if rest.isEmpty && c3 == '=' && c4 == '=' then
      match b64_index c1, b64_index c2 with
      | some d1, some d2 => if d2 % 16 = 0 then some [d1 * 4 + d2 / 16] else none
      | _, _ => none
    else if rest.isEmpty && c4 == '=' then
      match b64_index c1, b64_index c2, b64_index c3 with
      | some d1, some d2, some d3 =>
        if d3 % 4 = 0 then some [d1 * 4 + d2 / 16, d2 % 16 * 16 + d3 / 4] else none
      | _, _, _ => none
    else
      match b64_index c1, b64_index c2, b64_index c3, b64_index c4, b64_decode_groups rest with
      | some d1, some d2, some d3, some d4, some tl =>
        some ((d1 * 4 + d2 / 16) :: (d2 % 16 * 16 + d3 / 4) :: (d3 % 4 * 64 + d4) :: tl)
      | _, _, _, _, _ => none
  | _ => none

def b64_decode (s : Str) : Option (List Nat) := b64_decode_groups s

/-! ### Validators from `src/main.rs` (lines 58-69) -/

def is_valid_base58 (s : Str) : Bool := !(trim s).isEmpty && (b58_decode s).isSome

def is_valid_base64 (s : Str) : Bool := !(trim s).isEmpty && (b64_decode s).isSome

def is_valid_pubkey (s : Str) : Bool := !(trim s).isEmpty && (pubkey_from_str s).isSome

/-! ### Ed25519 model -/

/-- Modelled from the spec: the external SDK's derivation of an Ed25519
public key from the 32-byte secret half (opaque, deterministic). -/
def derive_pub (sk : List Nat) : List Nat := sk.map fun b => (b * 3 + 7) % 256

/-- Modelled from the spec: deterministic seed mixing the public key and
the message bytes (stands in for the SDK's opaque signature computation). -/
def sig_seed (pk : List Nat) (msg : Str) : Nat :=
  pk.foldl (fun a b => a * 263 + b + 13) 5 + msg.foldl (fun a c => a * 1114111 + c.toNat + 17) 3

/-- Modelled from the spec (§3): a 64-byte Ed25519 signature, derived
deterministically from the message bytes and the key. -/
def mk_sig (pk : List Nat) (msg : Str) : List Nat :=
  (List.range 64).map fun i => (sig_seed pk msg + 37 * i) % 256

/-- Modelled from the spec (§4.3): the SDK's verification routine — the
signature is valid iff it is the signature the matching secret key would
have produced for this message under this public key. -/
def ed25519_verify (sig pk : List Nat) (msg : Str) : Bool := sig == mk_sig pk msg

/-- An Ed25519 keypair: 32-byte secret half and 32-byte public half. -/
structure Keypair where
  sk : List Nat
  pk : List Nat
deriving DecidableEq

/-- Modelled from the spec: `Keypair::from_bytes` — requires exactly 64
bytes, splitting them into the secret and public halves. -/
def keypair_from_bytes (bs : List Nat) : Option Keypair :=
  if bs.length = 64 then some ⟨bs.take 32, bs.drop 32⟩ else none

/-- Modelled from the spec (§4.3): signing uses the secret half; the
signature verifies against the public key derived from that secret. -/
def keypair_sign (kp : Keypair) (msg : Str) : List Nat := mk_sig (derive_pub kp.sk) msg

/-- Modelled from the spec: `Signature::try_from` on a byte slice —
succeeds exactly on 64 bytes. -/
def signature_try_from (bs : List Nat) : Option (List Nat) :=
  if bs.length = 64 then some bs else none

/-- Modelled from the spec: `Pubkey::to_string` — base58 of the 32 bytes. -/
def pubkey_to_string (pk : List Nat) : Str := b58_encode pk

/-! ### Instruction model (modelled from the spec, §3: program identifier,
ordered account list, opaque payload bytes; fully determined by inputs) -/

structure AccountMeta where
  pubkey : List Nat
  is_signer : Bool
  is_writable : Bool
deriving DecidableEq

structure Instruction where
  program_id : List Nat
  accounts : List AccountMeta
  data : List Nat
deriving DecidableEq

def spl_token_id : List Nat := List.replicate 31 0 ++ [6]

def system_program_id : List Nat := List.replicate 32 0

def sysvar_rent_id : List Nat := List.replicate 31 0 ++ [7]

/-- Little-endian 8-byte encoding of a `u64` amount. -/
def u64_le (n : Nat) : List Nat :=
  [n % 256, n / 256 % 256, n / 65536 % 256, n / 16777216 % 256,
   n / 4294967296 % 256, n / 1099511627776 % 256,
   n / 281474976710656 % 256, n / 72057594037927936 % 256]

/-- Modelled from the spec (§4.2): the SDK's `initialize_mint` builder. -/
def initialize_mint (mint mint_authority : List Nat) (decimals : Nat) : Except Unit Instruction :=
  .ok ⟨spl_token_id, [⟨mint, false, true⟩, ⟨sysvar_rent_id, false, false⟩],
       0 :: decimals :: mint_authority⟩

/-- Modelled from the spec (§4.2): the SDK's `mint_to` builder. -/
def mint_to (mint destination authority : List Nat) (amount : Nat) : Except Unit Instruction :=
  .ok ⟨spl_token_id,
       [⟨mint, false, true⟩, ⟨destination, false, true⟩, ⟨authority, true, false⟩],
       7 :: u64_le amount⟩

/-- Modelled from the spec (§4.2): the SDK's `system_instruction::transfer`. -/
def system_transfer (source dest : List Nat) (lamports : Nat) : Instruction :=
  ⟨system_program_id, [⟨source, true, true⟩, ⟨dest, false, true⟩], 2 :: u64_le lamports⟩

/-! ### Response envelope (`src/main.rs` lines 31-55) -/

structure ErrorResponse where
  success : Bool
  error : Str
deriving DecidableEq

structure SuccessResponse (α : Type) where
  success : Bool
  data : α
deriving DecidableEq

/-- A handler's result: `Err((StatusCode::BAD_REQUEST, Json(ErrorResponse)))`
or `Ok(Json(SuccessResponse))` (axum serves the latter with HTTP 200). -/
abbrev HandlerOut (α : Type) := Except (Nat × ErrorResponse) (SuccessResponse α)

/-- The error tuple every failure path constructs:
`(StatusCode::BAD_REQUEST, Json(ErrorResponse { success: false, error: msg }))`. -/
def bad (msg : Str) : Nat × ErrorResponse := (400, ⟨false, msg⟩)

/-- HTTP status of a handler result (axum maps `Ok(Json(_))` to 200). -/
def http_status : HandlerOut α → Nat
  | .error e => e.1
  | .ok _ => 200

/-- `extract_json`: a JSON rejection (missing/invalid body) becomes a 400
"Missing required fields" error. -/
def extract_json (payload : Option α) : Except (Nat × ErrorResponse) α :=
  match payload with
  | some d => .ok d
  | none => .error (bad (str "Missing required fields"))

/-! ### Request / response DTOs (`src/main.rs`) -/

structure RequestForTokenCreation where
  mint_authority : Option Str
  mint : Option Str
  decimals : Option Nat
deriving DecidableEq

structure MintTokenWaliRequest where
  mint : Option Str
  destination : Option Str
  authority : Option Str
  amount : Option Nat
deriving DecidableEq

structure SignMessageRequest where
  message : Option Str
  secret : Option Str
deriving DecidableEq

structure VerifyMessageRequest where
  message : Option Str
  signature : Option Str
  pubkey : Option Str
deriving DecidableEq

structure SendSolRequest where
  «from» : Option Str
  «to» : Option Str
  lamports : Option Nat
deriving DecidableEq

structure SendTokenRequest where
  destination : Option Str
  mint : Option Str
  owner : Option Str
  amount : Option Nat
deriving DecidableEq

structure ResponseOfKeypair where
  pubkey : Str
  secret : Str
deriving DecidableEq

structure ResponseForAccountMeta where
  pubkey : Str
  is_signer : Bool
  is_writable : Bool
deriving DecidableEq

structure ResponseForInstruction where
  program_id : Str
  accounts : List ResponseForAccountMeta
  instruction_data : Str
deriving DecidableEq

structure SignatureResponse where
  signature : Str
  public_key : Str
  message : Str
deriving DecidableEq

structure VerificationResponse where
  valid : Bool
  message : Str
  pubkey : Str
deriving DecidableEq

structure SolTransferResponse where
  program_id : Str
  accounts : List Str
  instruction_data : Str
deriving DecidableEq

/-- Serialization of one `AccountMeta` in an instruction response. -/
def meta_to_response (acc : AccountMeta) : ResponseForAccountMeta :=
  ⟨pubkey_to_string acc.pubkey, acc.is_signer, acc.is_writable⟩

/-- Serialization of an `Instruction` as `ResponseForInstruction`. -/
def instr_to_response (instruction : Instruction) : ResponseForInstruction :=
  ⟨pubkey_to_string instruction.program_id,
   instruction.accounts.map meta_to_response,
   b64_encode instruction.data⟩

/-! ### The seven handlers (`src/main.rs`) -/

/-- `generate_keypair` (`/keypair`): `Keypair::new()` is an SDK RNG call,
so the fresh keypair is a parameter here. -/
def generate_keypair (kp : Keypair) : HandlerOut ResponseOfKeypair :=
  .ok ⟨true, ⟨pubkey_to_string kp.pk, b58_encode (kp.sk ++ kp.pk)⟩⟩

/-- `create_token` (`/token/create`), lines 152-249. -/
def create_token (payload : Option RequestForTokenCreation) : HandlerOut ResponseForInstruction :=
  match extract_json payload with
  | .error e => .error e
  | .ok req =>
  match req.mint_authority with
  | none => .error (bad (str "Missing required fields"))
  | some mint_authority_str =>
  match req.mint with
  | none => .error (bad (str "Missing required fields"))
  | some mint_str =>
  match req.decimals with
  | none => .error (bad (str "Missing required fields"))
  | some decimals =>
  if is_suspicious_text mint_authority_str || is_suspicious_text mint_str then
    .error (bad (str "Missing required fields"))
  else if 9 < decimals then .error (bad (str "Invalid decimals value"))
  else if !(is_valid_pubkey mint_authority_str) then .error (bad (str "Invalid mint authority"))
  else if !(is_valid_pubkey mint_str) then .error (bad (str "Invalid mint address"))
  else
  match pubkey_from_str mint_authority_str with
  | none => .error (bad (str "Invalid mint authority"))
  | some mint_authority =>
  match pubkey_from_str mint_str with
  | none => .error (bad (str "Invalid mint address"))
  | some mint =>
  match initialize_mint mint mint_authority decimals with
  | .error _ => .error (bad (str "Failed to create instruction"))
  | .ok instruction => .ok ⟨true, instr_to_response instruction⟩

/-- `mint_token` (`/token/mint`), lines 264-390. -/
def mint_token (payload : Option MintTokenWaliRequest) : HandlerOut ResponseForInstruction :=
  match extract_json payload with
  | .error e => .error e
  | .ok req =>
  match req.mint with
  | none => .error (bad (str "Missing required fields"))
  | some mint_str =>
  match req.destination with
  | none => .error (bad (str "Missing required fields"))
  | some destination_str =>
  match req.authority with
  | none => .error (bad (str "Missing required fields"))
  | some authority_str =>
  match req.amount with
  | none => .error (bad (str "Missing required fields"))
  | some amount =>
  if is_suspicious_text mint_str || is_suspicious_text destination_str ||
      is_suspicious_text authority_str then
    .error (bad (str "Missing required fields"))
  else if !(is_valid_pubkey mint_str) then
    .error (bad (str "Mai error hun :) -- (Mint in endpoint 3)"))
  else if !(is_valid_pubkey destination_str) then
    .error (bad (str "Error from destination in endpoint 3"))
  else if !(is_valid_pubkey authority_str) then
    .error (bad (str "Error from authority in endpoint 3"))
  else
  match pubkey_from_str mint_str with
  | none => .error (bad (str "Mai error hun :) -- (Mint in endpoint 3)"))
  | some mint =>
  match pubkey_from_str destination_str with
  | none => .error (bad (str "Error from destination in endpoint 3"))
  | some destination =>
  match pubkey_from_str authority_str with
  | none => .error (bad (str "Error from authority in endpoint 3"))
  | some authority =>
  if amount = 0 then .error (bad (str "Amount must be greater than 0"))
  else if 9223372036854775807 < amount then .error (bad (str "Amount too large"))
  else
  match mint_to mint destination authority amount with
  | .error _ => .error (bad (str "instruction failure in endpoint3, check krrr bhai.. jsldiiii"))
  | .ok instruction => .ok ⟨true, instr_to_response instruction⟩

/-- `sign_message` (`/message/sign`), lines 412-477. -/
def sign_message (payload : Option SignMessageRequest) : HandlerOut SignatureResponse :=
  match extract_json payload with
  | .error e => .error e
  | .ok req =>
  match req.message with
  | none => .error (bad (str "Missing required fields"))
  | some message =>
  match req.secret with
  | none => .error (bad (str "Missing required fields"))
  | some secret =>
  if is_suspicious_text message || is_suspicious_text secret then
    .error (bad (str "Missing required fields"))
  else if !(is_valid_base58 secret) then .error (bad (str "key format theek karo"))
  else
  match b58_decode secret with
  | none => .error (bad (str "key format theek karo"))
  | some secret_bytes =>
  if secret_bytes.length ≠ 64 then .error (bad (str "Invalid secret key"))
  else
  match keypair_from_bytes secret_bytes with
  | none => .error (bad (str "Invalid secret key"))
  | some keypair =>
  .ok ⟨true, ⟨b64_encode (keypair_sign keypair message), pubkey_to_string keypair.pk, message⟩⟩

/-- `verify_message` (`/message/verify`), lines 504-590. -/
def verify_message (payload : Option VerifyMessageRequest) : HandlerOut VerificationResponse :=
  match extract_json payload with
  | .error e => .error e
  | .ok req =>
  match req.message with
  | none => .error (bad (str "Missing required fields"))
  | some message =>
  match req.signature with
  | none => .error (bad (str "Missing required fields"))
  | some signature_str =>
  match req.pubkey with
  | none => .error (bad (str "Missing required fields"))
  | some pubkey_str =>
  if is_suspicious_text message || is_suspicious_text signature_str ||
      is_suspicious_text pubkey_str then
    .error (bad (str "Missing required fields"))
  else if !(is_valid_pubkey pubkey_str) then .error (bad (str "Invalid public key"))
  else if !(is_valid_base64 signature_str) then .error (bad (str "Invalid signature format"))
  else
  match pubkey_from_str pubkey_str with
  | none => .error (bad (str "Invalid public key"))
  | some pubkey =>
  match b64_decode signature_str with
  | none => .error (bad (str "Invalid signature format"))
  | some signature_bytes =>
  if signature_bytes.length ≠ 64 then .error (bad (str "Invalid signature"))
  else
  match signature_try_from signature_bytes with
  | none => .error (bad (str "Invalid signature"))
  | some signature =>
  .ok ⟨true, ⟨ed25519_verify signature pubkey message, message, pubkey_str⟩⟩

/-- `send_sol` (`/send/sol`), lines 619-712. -/
def send_sol (payload : Option SendSolRequest) : HandlerOut SolTransferResponse :=
  match extract_json payload with
  | .error e => .error e
  | .ok req =>
  match req.«from» with
  | none => .error (bad (str "Missing required fields"))
  | some from_str =>
  match req.«to» with
  | none => .error (bad (str "Missing required fields"))
  | some to_str =>
  match req.lamports with
  | none => .error (bad (str "Missing required fields"))
  | some lamports =>
  if is_suspicious_text from_str || is_suspicious_text to_str then
    .error (bad (str "Missing required fields"))
  else if !(is_valid_pubkey from_str) then .error (bad (str "Invalid from address"))
  else if !(is_valid_pubkey to_str) then .error (bad (str "Invalid to address"))
  else
  match pubkey_from_str from_str with
  | none => .error (bad (str "Invalid from address"))
  | some from_pubkey =>
  match pubkey_from_str to_str with
  | none => .error (bad (str "Invalid to address"))
  | some to_pubkey =>
  if lamports = 0 then .error (bad (str "Amount must be greater than 0"))
  else if 1000000000000000000 < lamports then .error (bad (str "Amount too large"))
  else if from_pubkey = to_pubkey then .error (bad (str "Cannot send to same address"))
  else
  let instruction := system_transfer from_pubkey to_pubkey lamports
  .ok ⟨true, ⟨pubkey_to_string instruction.program_id,
              instruction.accounts.map (fun acc => pubkey_to_string acc.pubkey),
              b64_encode instruction.data⟩⟩

/-- `send_token` (`/send/token`), lines 726-733: extract the JSON, then
always return the fixed not-implemented error. -/
def send_token (payload : Option SendTokenRequest) : HandlerOut Unit :=
  match extract_json payload with
  | .error e => .error e
  | .ok _ => .error (bad (str "Token transfer endpoint not implemented"))

/-! ### Lemmas: trimming and substring search -/

theorem dropWhile_eq_self_of_none (p : α → Bool) (l : List α)
    (h : ∀ c ∈ l, p c = false) : l.dropWhile p = l := by
  cases l with
  | nil => rfl
  | cons a t => simp [List.dropWhile_cons, h a (by simp)]

theorem trim_eq_self_of_no_ws (s : Str) (h : ∀ c ∈ s, is_rust_whitespace c = false) :
    trim s = s := by
  unfold trim
  rw [dropWhile_eq_self_of_none _ _ h,
      dropWhile_eq_self_of_none _ _ (fun c hc => h c (List.mem_reverse.mp hc)),
      List.reverse_reverse]

theorem trim_eq_nil_of_all_ws (s : Str) (h : ∀ c ∈ s, is_rust_whitespace c = true) :
    trim s = [] := by
  have h1 : s.dropWhile is_rust_whitespace = [] :=
    List.dropWhile_eq_nil_iff.mpr (by simpa using h)
  simp [trim, h1]

theorem starts_with_subset {p s : Str} (h : starts_with p s = true) : ∀ c ∈ p, c ∈ s := by
  induction p generalizing s with
  | nil => simp
  | cons a ps ih =>
    cases s with
    | nil => simp [starts_with] at h
    | cons b t =>
      simp only [starts_with, Bool.and_eq_true, beq_iff_eq] at h
      intro c hc
      rcases List.mem_cons.mp hc with rfl | hc
      · simp [h.1]
      · exact List.mem_cons_of_mem _ (ih h.2 c hc)

theorem has_substr_subset {p l : Str} (h : has_substr p l = true) : ∀ c ∈ p, c ∈ l := by
  induction l with
  | nil =>
    simp only [has_substr, List.isEmpty_iff] at h
    subst h; simp
  | cons a t ih =>
    simp only [has_substr, Bool.or_eq_true] at h
    rcases h with h | h
    · exact starts_with_subset h
    · exact fun c hc => List.mem_cons_of_mem _ (ih h c hc)

theorem has_substr_false_of_bad_char {p l : Str} (c : Char) (hc : c ∈ p) (hnc : c ∉ l) :
    has_substr p l = false := by
  cases h : has_substr p l with
  | false => rfl
  | true => exact absurd (has_substr_subset h c hc) hnc

theorem starts_with_false_of_short : ∀ (p s : Str), s.length < p.length →
    starts_with p s = false
  | [], s, h => by simp at h
  | _ :: _, [], _ => rfl
  | a :: ps, b :: t, h => by
    simp only [starts_with, Bool.and_eq_false_iff]
    exact Or.inr (starts_with_false_of_short ps t (by simpa using Nat.lt_of_succ_lt_succ h))

/-- Heads of `l ++ [c2, '=', '=']` are never `'='` when `l` avoids `'='` and
`c2 ≠ '='`, so a pattern starting with `'='` never matches there. -/
theorem sw_eq_head_false {l : Str} {c2 : Char} (hl : ∀ c ∈ l, c ≠ '=') (hc2 : c2 ≠ '=')
    (q : Str) : starts_with ('=' :: q) (l ++ [c2, '=', '=']) = false := by
  cases l with
  | nil => simp [starts_with, Ne.symm hc2]
  | cons a t => simp [starts_with, Ne.symm (hl a (by simp))]

theorem sw_pad_false {d c2 : Char} (hd : d ≠ '=') (hdc2 : d ≠ c2) :
    ∀ (u w : Str), (∀ c ∈ u, c ≠ '=') → (∀ c ∈ w, c ≠ '=') → c2 ≠ '=' →
    starts_with (w ++ [d, '=']) (u ++ [c2, '=', '=']) = false
  | [], [], hu, hw, hc2 => by simp [starts_with, hdc2]
  | [], [a], hu, hw, hc2 => by simp [starts_with, hd]
  | [], a :: b :: w'', hu, hw, hc2 => by
    apply starts_with_false_of_short
    simp only [List.cons_append, List.length_cons, List.length_append, List.length_nil,
      List.nil_append]
    omega
  | e :: u', [], hu, hw, hc2 => by
    have h2 := sw_eq_head_false (l := u') (fun c hc => hu c (by simp [hc])) hc2 []
    simp only [List.nil_append, List.cons_append, starts_with, List.append_eq]
    rw [h2]
    simp
  | e :: u', a :: w', hu, hw, hc2 => by
    have h2 := sw_pad_false hd hdc2 u' w' (fun c hc => hu c (by simp [hc]))
      (fun c hc => hw c (by simp [hc])) hc2
    simp only [List.cons_append, starts_with, List.append_eq]
    rw [h2]
    simp

/-- The padded tail `[c2, '=', '=']` of a base64 string can never contain a
pattern of the shape `w ++ [d, '=']` (the `onload=`-style denylist entries). -/
theorem has_substr_pad_false {d c2 : Char} (hd : d ≠ '=') (hdc2 : d ≠ c2) :
    ∀ (u w : Str), (∀ c ∈ u, c ≠ '=') → (∀ c ∈ w, c ≠ '=') → c2 ≠ '=' →
    has_substr (w ++ [d, '=']) (u ++ [c2, '=', '=']) = false
  | [], w, hu, hw, hc2 => by
    have h1 : starts_with (w ++ [d, '=']) [c2, '=', '='] = false :=
      sw_pad_false hd hdc2 [] w hu hw hc2
    have hlen : (w ++ [d, '=']).length = w.length + 2 := by simp
    have h2 : starts_with (w ++ [d, '=']) ['=', '='] = false := by
      cases w with
      | nil => simp [starts_with, hd]
      | cons a w' => simp [starts_with, hw a (by simp)]
    have h3 : starts_with (w ++ [d, '=']) ['='] = false := by
      cases w with
      | nil => simp [starts_with, hd]
      | cons a w' => simp [starts_with, hw a (by simp)]
    have h4 : (w ++ [d, '=']).isEmpty = false := by simp
    simp [has_substr, h1, h2, h3, h4]
  | e :: u', w, hu, hw, hc2 => by
    simp only [List.cons_append, has_substr]
    have hsw := sw_pad_false hd hdc2 (e :: u') w hu hw hc2
    simp only [List.cons_append] at hsw
    have hrec := has_substr_pad_false hd hdc2 u' w (fun c hc => hu c (by simp [hc])) hw hc2
    simp [hsw, hrec]

/-! ### Lemmas: sufficient conditions for passing the suspicious-text filter -/

theorem utf8_len_eq_length (s : Str) (h : ∀ c ∈ s, char_utf8_size c = 1) :
    utf8_len s = s.length := by
  induction s with
  | nil => rfl
  | cons a t ih =>
    simp only [utf8_len, List.map_cons, List.sum_cons, h a (by simp), List.length_cons]
    rw [show (t.map char_utf8_size).sum = utf8_len t from rfl,
        ih (fun c hc => h c (by simp [hc]))]
    omega

theorem not_suspicious_of_parts (s : Str) (hne : s ≠ [])
    (hws : ∀ c ∈ s, is_rust_whitespace c = false)
    (hlen : utf8_len s ≤ 1000)
    (hctrl : ∀ c ∈ s, is_control_char c = false)
    (hpats : ∀ p ∈ suspicious_patterns, has_substr p (to_lower_str s) = false) :
    is_suspicious_text s = false := by
  have ht := trim_eq_self_of_no_ws s hws
  have h0 : s.isEmpty = false := by simp [List.isEmpty_iff, hne]
  have hnull : '\x00' ∉ s := by
    intro hm
    have := hctrl _ hm
    simp [is_control_char] at this
  have hcont : s.contains '\x00' = false := by simp [hnull]
  have hany : (s.any fun c =>
      is_control_char c && !(c == '\n') && !(c == '\r') && !(c == '\t')) = false := by
    simp only [List.any_eq_false]
    intro c hc
    simp [hctrl c hc]
  have hpat : (suspicious_patterns.any fun p => has_substr p (to_lower_str s)) = false := by
    simp only [List.any_eq_false]
    intro p hp
    simp [hpats p hp]
  simp only [is_suspicious_text, ht, h0, Bool.false_eq_true, if_false,
    hcont, hany, Bool.or_self, if_neg (by omega : ¬ 1000 < utf8_len s)]
  simp [hpat]

theorem alnum_facts (c : Char) (h : is_alnum_ascii c = true) :
    is_rust_whitespace c = false ∧ is_control_char c = false ∧ char_utf8_size c = 1 := by
  simp only [is_alnum_ascii, Bool.or_eq_true, Bool.and_eq_true, decide_eq_true_eq] at h
  refine ⟨?_, ?_, ?_⟩
  · rw [Bool.eq_false_iff]
    intro h'
    simp only [is_rust_whitespace, Bool.or_eq_true, Bool.and_eq_true, beq_iff_eq,
      decide_eq_true_eq] at h'
    omega
  · rw [Bool.eq_false_iff]
    intro h'
    simp only [is_control_char, Bool.or_eq_true, Bool.and_eq_true, decide_eq_true_eq] at h'
    omega
  · rw [char_utf8_size, if_pos (by omega)]

theorem to_lower_alnum (c : Char) (h : is_alnum_ascii c = true) :
    is_alnum_ascii (to_lower_ascii c) = true := by
  simp only [is_alnum_ascii, Bool.or_eq_true, Bool.and_eq_true, decide_eq_true_eq] at h
  by_cases hc : 65 ≤ c.toNat ∧ c.toNat ≤ 90
  · have hv : (c.toNat + 32).isValidChar := Or.inl (by omega)
    have htl : (to_lower_ascii c).toNat = c.toNat + 32 := by
      simp only [to_lower_ascii, Bool.and_eq_true, decide_eq_true_eq, if_pos hc]
      simp only [Char.ofNat, hv, reduceDIte]
      rfl
    simp only [is_alnum_ascii, htl, Bool.or_eq_true, Bool.and_eq_true, decide_eq_true_eq]
    omega
  · have htl : to_lower_ascii c = c := by
      simp only [to_lower_ascii]
      rw [if_neg]
      simp only [Bool.and_eq_true, decide_eq_true_eq, not_and, not_le]
      omega
    simp only [is_alnum_ascii, htl, Bool.or_eq_true, Bool.and_eq_true, decide_eq_true_eq]
    omega

theorem pattern_bad_char_alnum :
    ∀ p ∈ suspicious_patterns, ∃ c ∈ p, is_alnum_ascii c = false := by decide

/-- A nonempty, not-too-long, all-alphanumeric string passes the filter. -/
theorem alnum_not_suspicious (s : Str) (h : ∀ c ∈ s, is_alnum_ascii c = true)
    (hne : s ≠ []) (hlen : s.length ≤ 1000) : is_suspicious_text s = false := by
  apply not_suspicious_of_parts s hne
  · exact fun c hc => (alnum_facts c (h c hc)).1
  · rw [utf8_len_eq_length s (fun c hc => (alnum_facts c (h c hc)).2.2)]
    exact hlen
  · exact fun c hc => (alnum_facts c (h c hc)).2.1
  · intro p hp
    obtain ⟨c, hcp, hcna⟩ := pattern_bad_char_alnum p hp
    apply has_substr_false_of_bad_char c hcp
    intro hcl
    obtain ⟨a, ha, rfl⟩ := List.mem_map.mp hcl
    rw [to_lower_alnum a (h a ha)] at hcna
    exact absurd hcna (by simp)

def lower_b64_chars : Str := str "abcdefghijklmnopqrstuvwxyz0123456789+/"

theorem b64_alphabet_lower_mem : ∀ c ∈ b64_alphabet, to_lower_ascii c ∈ lower_b64_chars := by
  decide

theorem b64_alphabet_char_facts : ∀ c ∈ b64_alphabet,
    is_rust_whitespace c = false ∧ is_control_char c = false ∧ char_utf8_size c = 1 := by decide

theorem lower_b64_no_pad : ∀ c ∈ lower_b64_chars, c ≠ '=' := by decide

theorem pad_chars_in_alphabet : ∀ c ∈ (['A', 'Q', 'g', 'w'] : Str), c ∈ b64_alphabet := by decide

theorem has_substr_of_bad_char17 (p L : Str) (b : Char) (hbp : b ∈ p)
    (hb1 : b ∉ lower_b64_chars) (hb2 : b ≠ '=')
    (hallow : ∀ c ∈ L, c ∈ lower_b64_chars ∨ c = '=') : has_substr p L = false := by
  apply has_substr_false_of_bad_char b hbp
  intro hb
  rcases hallow b hb with h | h
  · exact hb1 h
  · exact hb2 h

/-- A base64 string ending in its two padding characters passes the filter:
no denylist pattern can occur in it. -/
theorem b64_padded_not_suspicious (u : Str) (c2 : Char)
    (hu : ∀ c ∈ u, c ∈ b64_alphabet) (hc2 : c2 ∈ (['A', 'Q', 'g', 'w'] : Str))
    (hlen : u.length ≤ 900) :
    is_suspicious_text (u ++ [c2, '=', '=']) = false := by
  have hc2ab : c2 ∈ b64_alphabet := pad_chars_in_alphabet c2 hc2
  have hmem : ∀ c ∈ u ++ [c2, '=', '='], c ∈ b64_alphabet ∨ c = '=' := by
    intro c hc
    rcases List.mem_append.mp hc with h | h
    · exact Or.inl (hu c h)
    · simp only [List.mem_cons, List.mem_singleton] at h
      rcases h with rfl | rfl | rfl | h
      · exact Or.inl hc2ab
      · exact Or.inr rfl
      · exact Or.inr rfl
      · simp at h
  have heqfacts : is_rust_whitespace '=' = false ∧ is_control_char '=' = false ∧
      char_utf8_size '=' = 1 := by decide
  have hfacts : ∀ c ∈ u ++ [c2, '=', '='],
      is_rust_whitespace c = false ∧ is_control_char c = false ∧ char_utf8_size c = 1 := by
    intro c hc
    rcases hmem c hc with h | rfl
    · exact b64_alphabet_char_facts c h
    · exact heqfacts
  have hlower : to_lower_str (u ++ [c2, '=', '=']) =
      to_lower_str u ++ [to_lower_ascii c2, '=', '='] := by
    simp [to_lower_str, to_lower_ascii]
  have hallow : ∀ c ∈ to_lower_str (u ++ [c2, '=', '=']), c ∈ lower_b64_chars ∨ c = '=' := by
    intro c hc
    obtain ⟨a, ha, rfl⟩ := List.mem_map.mp hc
    rcases hmem a ha with h | rfl
    · exact Or.inl (b64_alphabet_lower_mem a h)
    · exact Or.inr (by decide)
  have hlc2 : to_lower_ascii c2 = 'a' ∨ to_lower_ascii c2 = 'q' ∨ to_lower_ascii c2 = 'g' ∨
      to_lower_ascii c2 = 'w' := by
    have : c2 = 'A' ∨ c2 = 'Q' ∨ c2 = 'g' ∨ c2 = 'w' := by simpa using hc2
    rcases this with rfl | rfl | rfl | rfl
    · exact Or.inl (by decide)
    · exact Or.inr (Or.inl (by decide))
    · exact Or.inr (Or.inr (Or.inl (by decide)))
    · exact Or.inr (Or.inr (Or.inr (by decide)))
  have hlc2ne : to_lower_ascii c2 ≠ '=' := by
    rcases hlc2 with h | h | h | h <;> simp [h]
  have hlowu : ∀ c ∈ to_lower_str u, c ≠ '=' := by
    intro c hc
    obtain ⟨a, ha, rfl⟩ := List.mem_map.mp hc
    exact lower_b64_no_pad _ (b64_alphabet_lower_mem a (hu a ha))
  apply not_suspicious_of_parts
  · simp
  · exact fun c hc => (hfacts c hc).1
  · rw [utf8_len_eq_length _ (fun c hc => (hfacts c hc).2.2)]
    simp only [List.length_append, List.length_cons, List.length_nil]
    omega
  · exact fun c hc => (hfacts c hc).2.1
  · intro p hp
    have hp20 : p = str "drop table" ∨ p = str "delete from" ∨ p = str "insert into" ∨
        p = str "update set" ∨ p = str "union select" ∨ p = str "' or '" ∨
        p = str "\" or \"" ∨ p = str "; --" ∨ p = str "/*" ∨ p = str "*/" ∨
        p = str "<script" ∨ p = str "</script" ∨ p = str "javascript:" ∨ p = str "data:" ∨
        p = str "vbscript:" ∨ p = str "onload=" ∨ p = str "onerror=" ∨ p = str "onclick=" ∨
        p = str "../" ∨ p = str "..\\" := by simpa [suspicious_patterns] using hp
    have pad3 : ∀ (w : Str) (d : Char), d ≠ '=' → d ≠ to_lower_ascii c2 →
        (∀ c ∈ w, c ≠ '=') →
        has_substr (w ++ [d, '=']) (to_lower_str (u ++ [c2, '=', '='])) = false := by
      intro w d hd hdc2 hw
      rw [hlower]
      exact has_substr_pad_false hd hdc2 (to_lower_str u) w hlowu hw hlc2ne
    rcases hp20 with rfl | rfl | rfl | rfl | rfl | rfl | rfl | rfl | rfl | rfl | rfl | rfl |
      rfl | rfl | rfl | rfl | rfl | rfl | rfl | rfl
    · exact has_substr_of_bad_char17 _ _ ' ' (by decide) (by decide) (by decide) hallow
    · exact has_substr_of_bad_char17 _ _ ' ' (by decide) (by decide) (by decide) hallow
    · exact has_substr_of_bad_char17 _ _ ' ' (by decide) (by decide) (by decide) hallow
    · exact has_substr_of_bad_char17 _ _ ' ' (by decide) (by decide) (by decide) hallow
    · exact has_substr_of_bad_char17 _ _ ' ' (by decide) (by decide) (by decide) hallow
    · exact has_substr_of_bad_char17 _ _ '\'' (by decide) (by decide) (by decide) hallow
    · exact has_substr_of_bad_char17 _ _ '"' (by decide) (by decide) (by decide) hallow
    · exact has_substr_of_bad_char17 _ _ ';' (by decide) (by decide) (by decide) hallow
    · exact has_substr_of_bad_char17 _ _ '*' (by decide) (by decide) (by decide) hallow
    · exact has_substr_of_bad_char17 _ _ '*' (by decide) (by decide) (by decide) hallow
    · exact has_substr_of_bad_char17 _ _ '<' (by decide) (by decide) (by decide) hallow
    · exact has_substr_of_bad_char17 _ _ '<' (by decide) (by decide) (by decide) hallow
    · exact has_substr_of_bad_char17 _ _ ':' (by decide) (by decide) (by decide) hallow
    · exact has_substr_of_bad_char17 _ _ ':' (by decide) (by decide) (by decide) hallow
    · exact has_substr_of_bad_char17 _ _ ':' (by decide) (by decide) (by decide) hallow
    · exact pad3 (str "onloa") 'd' (by decide) (by rcases hlc2 with h | h | h | h <;> simp [h])
        (by decide)
    · exact pad3 (str "onerro") 'r' (by decide) (by rcases hlc2 with h | h | h | h <;> simp [h])
        (by decide)
    · exact pad3 (str "onclic") 'k' (by decide) (by rcases hlc2 with h | h | h | h <;> simp [h])
        (by decide)
    · exact has_substr_of_bad_char17 _ _ '.' (by decide) (by decide) (by decide) hallow
    · exact has_substr_of_bad_char17 _ _ '.' (by decide) (by decide) (by decide) hallow

/-! ### Lemmas: positional arithmetic and the base58 round trip -/

theorem nat_digits_aux_eq (b : Nat) (hb : 1 < b) :
    ∀ fuel n, n < fuel → nat_digits_aux b fuel n = Nat.digits b n := by
  intro fuel
  induction fuel with
  | zero => intro n hn; omega
  | succ f ih =>
    intro n hn
    by_cases h0 : n = 0
    · subst h0; simp [nat_digits_aux]
    · rw [nat_digits_aux, if_neg h0, Nat.digits_def' hb (Nat.pos_of_ne_zero h0),
        ih (n / b) (by have := Nat.div_lt_self (Nat.pos_of_ne_zero h0) hb; omega)]

theorem nat_digits_eq (b n : Nat) (hb : 1 < b) : nat_digits b n = Nat.digits b n :=
  nat_digits_aux_eq b hb (n + 1) n (Nat.lt_succ_self n)

theorem of_digits_eq (b : Nat) (l : List Nat) : of_digits b l = Nat.ofDigits b l := by
  induction l with
  | nil => simp [of_digits, Nat.ofDigits]
  | cons d ds ih => simp [of_digits, Nat.ofDigits_cons, ih]

theorem of_digits_replicate_zero (b z : Nat) : of_digits b (List.replicate z 0) = 0 := by
  induction z with
  | zero => rfl
  | succ k ih => simp [List.replicate_succ, of_digits, ih]

theorem of_digits_append_zeros (b : Nat) (l : List Nat) (z : Nat) :
    of_digits b (l ++ List.replicate z 0) = of_digits b l := by
  induction l with
  | nil => simpa using of_digits_replicate_zero b z
  | cons d ds ih => simp [of_digits, ih]

theorem of_digits_all_zero (b : Nat) (hb : 0 < b) :
    ∀ l : List Nat, of_digits b l = 0 → ∀ x ∈ l, x = 0 := by
  intro l
  induction l with
  | nil => simp
  | cons d ds ih =>
    intro h x hx
    simp only [of_digits] at h
    have hd : d = 0 := by omega
    have hds : b * of_digits b ds = 0 := by omega
    rcases List.mem_cons.mp hx with rfl | hx
    · exact hd
    · exact ih (by rcases Nat.mul_eq_zero.mp hds with h | h; omega; exact h) x hx

theorem of_digits_lt (b : Nat) (hb : 0 < b) :
    ∀ l : List Nat, (∀ x ∈ l, x < b) → of_digits b l < b ^ l.length := by
  intro l
  induction l with
  | nil => simp [of_digits]
  | cons d ds ih =>
    intro h
    have h1 : of_digits b ds + 1 ≤ b ^ ds.length := ih (fun x hx => h x (by simp [hx]))
    have h2 : d < b := h d (by simp)
    calc of_digits b (d :: ds) = d + b * of_digits b ds := rfl
    _ < b + b * of_digits b ds := by omega
    _ = b * (of_digits b ds + 1) := by ring
    _ ≤ b * b ^ ds.length := Nat.mul_le_mul_left b h1
    _ = b ^ (d :: ds).length := by rw [List.length_cons]; ring

theorem lead_zeros_replicate_append (z : Nat) (t : List Nat)
    (ht : ∀ x, t.head? = some x → x ≠ 0) :
    lead_zeros (List.replicate z 0 ++ t) = z := by
  induction z with
  | zero =>
    simp only [List.replicate_zero, List.nil_append]
    cases t with
    | nil => rfl
    | cons x t' =>
      have hx : x ≠ 0 := ht x rfl
      unfold lead_zeros
      rw [List.takeWhile_cons, if_neg (by simp [hx])]
      rfl
  | succ k ih =>
    simp only [List.replicate_succ, List.cons_append]
    unfold lead_zeros
    rw [List.takeWhile_cons, if_pos (by decide)]
    simp only [List.length_cons]
    unfold lead_zeros at ih
    omega

theorem mem_takeWhile_zero (l : List Nat) :
    ∀ x ∈ l.takeWhile (· == 0), x = 0 := by
  intro x hx
  have := List.mem_takeWhile_imp hx
  simpa using this

theorem take_drop_zeros (bs : List Nat) :
    bs = List.replicate (lead_zeros bs) 0 ++ bs.dropWhile (· == 0) := by
  conv_lhs => rw [← List.takeWhile_append_dropWhile (p := (· == 0)) (l := bs)]
  congr 1
  exact List.eq_replicate_iff.mpr ⟨rfl, mem_takeWhile_zero bs⟩

theorem head_dropWhile_ne (l : List Nat) :
    ∀ x, (l.dropWhile (· == 0)).head? = some x → x ≠ 0 := by
  induction l with
  | nil => simp
  | cons a t ih =>
    by_cases ha : a = 0
    · subst ha; simpa [List.dropWhile_cons] using ih
    · simp [List.dropWhile_cons, ha]

theorem b58_index_char : ∀ d < 58, b58_index (b58_char d) = some d := by decide

theorem b58_index_one : b58_index '1' = some 0 := by decide

theorem b58_char_mem : ∀ d < 58, b58_char d ∈ b58_alphabet := by decide

theorem b58_alphabet_alnum : ∀ c ∈ b58_alphabet, is_alnum_ascii c = true := by decide

theorem list_map_opt_append (f : α → Option β) (l1 l2 : List α) (r1 r2 : List β)
    (h1 : list_map_opt f l1 = some r1) (h2 : list_map_opt f l2 = some r2) :
    list_map_opt f (l1 ++ l2) = some (r1 ++ r2) := by
  induction l1 generalizing r1 with
  | nil =>
    simp only [list_map_opt] at h1
    cases h1
    simpa using h2
  | cons a as ih =>
    simp only [list_map_opt] at h1 ⊢
    cases hfa : f a with
    | none => rw [hfa] at h1; exact absurd h1 (by simp)
    | some b =>
      rw [hfa] at h1
      obtain ⟨r', hr', rfl⟩ := Option.map_eq_some'.mp h1
      simp [list_map_opt, hfa, ih r' hr']

theorem list_map_opt_replicate_one (z : Nat) :
    list_map_opt b58_index (List.replicate z '1') = some (List.replicate z 0) := by
  induction z with
  | zero => rfl
  | succ k ih => simp [List.replicate_succ, list_map_opt, b58_index_one, ih]

theorem list_map_opt_b58_digits (ds : List Nat) (hds : ∀ d ∈ ds, d < 58) :
    list_map_opt b58_index (ds.map b58_char) = some ds := by
  induction ds with
  | nil => rfl
  | cons d t ih =>
    simp [List.map_cons, list_map_opt, b58_index_char d (hds d (by simp)),
      ih (fun x hx => hds x (by simp [hx]))]

theorem bytes_to_nat_replicate_append (z : Nat) (rest : List Nat) :
    bytes_to_nat (List.replicate z 0 ++ rest) = of_digits 256 rest.reverse := by
  rw [bytes_to_nat, List.reverse_append, List.reverse_replicate, of_digits_append_zeros]

theorem digits58_head_ne (n : Nat) :
    ∀ x, (Nat.digits 58 n).reverse.head? = some x → x ≠ 0 := by
  intro x hx hx0
  subst hx0
  rw [List.head?_reverse] at hx
  by_cases hn0 : n = 0
  · rw [hn0] at hx; simp at hx
  · have hnn : Nat.digits 58 n ≠ [] := Nat.digits_ne_nil_iff_ne_zero.mpr hn0
    rw [List.getLast?_eq_getLast _ hnn] at hx
    injection hx with h
    exact Nat.getLast_digit_ne_zero 58 hn0 h

/-- Core of the base58 round trip for a byte string split as leading zeros
plus a remainder with nonzero head. -/
theorem b58_round_core (z : Nat) (rest : List Nat)
    (hr : ∀ x, rest.head? = some x → x ≠ 0) (h256 : ∀ b ∈ rest, b < 256) :
    b58_decode (b58_encode (List.replicate z 0 ++ rest)) =
      some (List.replicate z 0 ++ rest) := by
  have hb58 : (1 : Nat) < 58 := by norm_num
  have hb256 : (1 : Nat) < 256 := by norm_num
  have hn_eq : bytes_to_nat (List.replicate z 0 ++ rest) = of_digits 256 rest.reverse :=
    bytes_to_nat_replicate_append z rest
  have hlz_bs : lead_zeros (List.replicate z 0 ++ rest) = z :=
    lead_zeros_replicate_append z rest hr
  have hdig_eq : nat_digits 58 (of_digits 256 rest.reverse) =
      Nat.digits 58 (of_digits 256 rest.reverse) := nat_digits_eq _ _ hb58
  have hdlt : ∀ d ∈ (nat_digits 58 (of_digits 256 rest.reverse)).reverse, d < 58 := by
    intro d hd
    rw [hdig_eq] at hd
    exact Nat.digits_lt_base hb58 (List.mem_reverse.mp hd)
  have henc : b58_encode (List.replicate z 0 ++ rest) =
      List.replicate z '1' ++
        (nat_digits 58 (of_digits 256 rest.reverse)).reverse.map b58_char := by
    rw [b58_encode, hlz_bs, hn_eq]
  have hdec1 : list_map_opt b58_index (b58_encode (List.replicate z 0 ++ rest)) =
      some (List.replicate z 0 ++ (nat_digits 58 (of_digits 256 rest.reverse)).reverse) := by
    rw [henc]
    exact list_map_opt_append _ _ _ _ _ (list_map_opt_replicate_one z)
      (list_map_opt_b58_digits _ hdlt)
  have hlz_ds : lead_zeros
      (List.replicate z 0 ++ (nat_digits 58 (of_digits 256 rest.reverse)).reverse) = z := by
    apply lead_zeros_replicate_append
    rw [hdig_eq]
    exact digits58_head_ne _
  have hval : of_digits 58
      (List.replicate z 0 ++ (nat_digits 58 (of_digits 256 rest.reverse)).reverse).reverse =
      of_digits 256 rest.reverse := by
    rw [List.reverse_append, List.reverse_reverse, List.reverse_replicate,
      of_digits_append_zeros, of_digits_eq, hdig_eq, Nat.ofDigits_digits]
  have hbytes : (nat_digits 256 (of_digits 256 rest.reverse)).reverse = rest := by
    rcases hrc : rest with _ | ⟨r, rest'⟩
    · simp only [List.reverse_nil]
      rw [show of_digits 256 ([] : List Nat) = 0 from rfl,
        nat_digits_eq 256 0 hb256, Nat.digits_zero, List.reverse_nil]
    · have hr0 : r ≠ 0 := hr r (by rw [hrc]; rfl)
      have hrev_ne : (r :: rest').reverse ≠ [] := by simp
      have hsub : ∀ x ∈ (r :: rest').reverse, x < 256 := by
        intro x hx
        exact h256 x (by rw [hrc]; exact List.mem_reverse.mp hx)
      have hgl : ∀ h : (r :: rest').reverse ≠ [], (r :: rest').reverse.getLast h ≠ 0 := by
        intro h
        have h1 : (r :: rest').reverse.getLast? = some r := by
          rw [List.getLast?_reverse]
          rfl
        rw [List.getLast?_eq_getLast _ h] at h1
        injection h1 with h1
        rw [h1]
        exact hr0
      have hdig : Nat.digits 256 (of_digits 256 (r :: rest').reverse) = (r :: rest').reverse := by
        rw [of_digits_eq]
        exact Nat.digits_ofDigits 256 hb256 _ hsub hgl
      rw [nat_digits_eq _ _ hb256, hdig, List.reverse_reverse]
  rw [b58_decode, hdec1, Option.map_some', hlz_ds, hval, hbytes]

/-- The base58 round trip: decoding an encoded byte string gives it back. -/
theorem b58_decode_encode (bs : List Nat) (h256 : ∀ b ∈ bs, b < 256) :
    b58_decode (b58_encode bs) = some bs := by
  conv_lhs => rw [take_drop_zeros bs]
  rw [b58_round_core (lead_zeros bs) (bs.dropWhile (· == 0)) (head_dropWhile_ne bs)
    (fun b hb => h256 b ((List.dropWhile_sublist _).subset hb))]
  exact congrArg some (take_drop_zeros bs).symm

/-! ### Lemmas: base64 round trip and structure -/

theorem b64_index_char : ∀ d < 64, b64_index (b64_char d) = some d := by decide

theorem b64_char_mem : ∀ d < 64, b64_char d ∈ b64_alphabet := by decide

theorem b64_char_ne_pad : ∀ d < 64, b64_char d ≠ '=' := by decide

theorem idx_of_mem {c : Char} : ∀ {l : Str} {j : Nat}, idx_of c l = some j → c ∈ l := by
  intro l
  induction l with
  | nil => intro j h; simp [idx_of] at h
  | cons a as ih =>
    intro j h
    simp only [idx_of] at h
    by_cases hac : (a == c) = true
    · simp only [beq_iff_eq] at hac
      simp [hac]
    · rw [if_neg hac] at h
      obtain ⟨j', hj', rfl⟩ := Option.map_eq_some'.mp h
      exact List.mem_cons_of_mem _ (ih hj')

theorem idx_of_some_char {c : Char} : ∀ {l : Str} {j : Nat}, idx_of c l = some j →
    l.getD j '?' = c := by
  intro l
  induction l with
  | nil => intro j h; simp [idx_of] at h
  | cons a as ih =>
    intro j h
    simp only [idx_of] at h
    by_cases hac : (a == c) = true
    · rw [if_pos hac] at h
      injection h with h
      subst h
      simpa using hac
    · rw [if_neg hac] at h
      obtain ⟨j', hj', rfl⟩ := Option.map_eq_some'.mp h
      simpa using ih hj'

theorem idx_of_lt_length {c : Char} : ∀ {l : Str} {j : Nat}, idx_of c l = some j →
    j < l.length := by
  intro l
  induction l with
  | nil => intro j h; simp [idx_of] at h
  | cons a as ih =>
    intro j h
    simp only [idx_of] at h
    by_cases hac : (a == c) = true
    · rw [if_pos hac] at h; injection h with h; subst h; simp
    · rw [if_neg hac] at h
      obtain ⟨j', hj', rfl⟩ := Option.map_eq_some'.mp h
      have := ih hj'
      simp only [List.length_cons]
      omega

theorem b64_index_eq_char {c : Char} {d : Nat} (h : b64_index c = some d) :
    d < 64 ∧ c = b64_char d := by
  have h1 : d < 64 := by
    have := idx_of_lt_length h
    simpa [b64_alphabet, str] using this
  have h2 : b64_alphabet.getD d '?' = c := idx_of_some_char h
  exact ⟨h1, by rw [b64_char, h2]⟩

theorem b64_index_mem {c : Char} {d : Nat} (h : b64_index c = some d) : c ∈ b64_alphabet :=
  idx_of_mem h

/-- The base64 round trip: decoding an encoded byte string gives it back. -/
theorem b64_decode_encode : ∀ bs : List Nat, (∀ b ∈ bs, b < 256) →
    b64_decode (b64_encode bs) = some bs
  | [], _ => rfl
  | [b1], h => by
    have hb1 : b1 < 256 := h b1 (by simp)
    have h1 := b64_index_char (b1 / 4) (by omega)
    have h2 := b64_index_char (b1 % 4 * 16) (by omega)
    simp only [b64_encode, b64_decode, b64_decode_groups, List.isEmpty_nil, beq_self_eq_true,
      Bool.and_self, Bool.and_true, h1, h2]
    rw [if_pos trivial, if_pos (by omega)]
    exact congrArg some (by
      simp only [List.cons.injEq]
      exact ⟨by omega, trivial⟩)
  | [b1, b2], h => by
    have hb1 : b1 < 256 := h b1 (by simp)
    have hb2 : b2 < 256 := h b2 (by simp)
    have h1 := b64_index_char (b1 / 4) (by omega)
    have h2 := b64_index_char (b1 % 4 * 16 + b2 / 16) (by omega)
    have h3 := b64_index_char (b2 % 16 * 4) (by omega)
    have hne : (b64_char (b2 % 16 * 4) == '=') = false := by
      simp [b64_char_ne_pad (b2 % 16 * 4) (by omega)]
    simp only [b64_encode, b64_decode, b64_decode_groups, List.isEmpty_nil, beq_self_eq_true,
      Bool.and_true, Bool.true_and, hne, Bool.and_false, Bool.false_and, if_false,
      Bool.and_self, h1, h2, h3]
    rw [if_neg (by simp), if_pos trivial, if_pos (by omega)]
    exact congrArg some (by
      simp only [List.cons.injEq]
      exact ⟨by omega, by omega, trivial⟩)
  | b1 :: b2 :: b3 :: b4 :: rest, h => by
    have hb1 : b1 < 256 := h b1 (by simp)
    have hb2 : b2 < 256 := h b2 (by simp)
    have hb3 : b3 < 256 := h b3 (by simp)
    have h1 := b64_index_char (b1 / 4) (by omega)
    have h2 := b64_index_char (b1 % 4 * 16 + b2 / 16) (by omega)
    have h3 := b64_index_char (b2 % 16 * 4 + b3 / 64) (by omega)
    have h4 := b64_index_char (b3 % 64) (by omega)
    have hne3 : (b64_char (b2 % 16 * 4 + b3 / 64) == '=') = false := by
      simp [b64_char_ne_pad (b2 % 16 * 4 + b3 / 64) (by omega)]
    have hne4 : (b64_char (b3 % 64) == '=') = false := by
      simp [b64_char_ne_pad (b3 % 64) (by omega)]
    have hrec : b64_decode_groups (b64_encode (b4 :: rest)) = some (b4 :: rest) :=
      b64_decode_encode (b4 :: rest) (fun b hb => h b (by simp [hb]))
    show b64_decode_groups _ = _
    rw [show b64_encode (b1 :: b2 :: b3 :: b4 :: rest) =
      b64_char (b1 / 4) :: b64_char (b1 % 4 * 16 + b2 / 16) ::
      b64_char (b2 % 16 * 4 + b3 / 64) :: b64_char (b3 % 64) :: b64_encode (b4 :: rest)
      from rfl]
    simp only [b64_decode_groups]
    rw [if_neg (by simp [hne3]), if_neg (by simp [hne4])]
    rw [h1, h2, h3, h4, hrec]
    exact congrArg some (by
      simp only [List.cons.injEq]
      exact ⟨by omega, by omega, by omega, trivial⟩)
  | [b1, b2, b3], h => by
    have hb1 : b1 < 256 := h b1 (by simp)
    have hb2 : b2 < 256 := h b2 (by simp)
    have hb3 : b3 < 256 := h b3 (by simp)
    have h1 := b64_index_char (b1 / 4) (by omega)
    have h2 := b64_index_char (b1 % 4 * 16 + b2 / 16) (by omega)
    have h3 := b64_index_char (b2 % 16 * 4 + b3 / 64) (by omega)
    have h4 := b64_index_char (b3 % 64) (by omega)
    have hne3 : (b64_char (b2 % 16 * 4 + b3 / 64) == '=') = false := by
      simp [b64_char_ne_pad (b2 % 16 * 4 + b3 / 64) (by omega)]
    have hne4 : (b64_char (b3 % 64) == '=') = false := by
      simp [b64_char_ne_pad (b3 % 64) (by omega)]
    show b64_decode_groups _ = _
    rw [show b64_encode [b1, b2, b3] =
      b64_char (b1 / 4) :: b64_char (b1 % 4 * 16 + b2 / 16) ::
      b64_char (b2 % 16 * 4 + b3 / 64) :: b64_char (b3 % 64) :: b64_encode []
      from rfl]
    simp only [b64_decode_groups]
    rw [if_neg (by simp [hne3]), if_neg (by simp [hne4])]
    rw [h1, h2, h3, h4]
    exact congrArg some (by
      simp only [List.cons.injEq]
      exact ⟨by omega, by omega, by omega, trivial⟩)

theorem b64_encode_length : ∀ bs : List Nat, (b64_encode bs).length ≤ 2 * bs.length + 4
  | [] => by simp [b64_encode]
  | [b1] => by simp [b64_encode]
  | [b1, b2] => by simp [b64_encode]
  | b1 :: b2 :: b3 :: rest => by
    have ih := b64_encode_length rest
    rcases rest with _ | ⟨b4, rest'⟩
    · simp [b64_encode]
    · show (b64_char (b1 / 4) :: b64_char (b1 % 4 * 16 + b2 / 16) ::
        b64_char (b2 % 16 * 4 + b3 / 64) :: b64_char (b3 % 64) ::
        b64_encode (b4 :: rest')).length ≤ _
      simp only [List.length_cons] at ih ⊢
      omega

theorem b64_decode_length : ∀ (cs : Str) (bs : List Nat),
    b64_decode_groups cs = some bs → cs.length ≤ 2 * bs.length + 4
  | [], bs, h => by
    simp only [b64_decode_groups, Option.some.injEq] at h
    subst h
    simp
  | [c1], bs, h => by simp [b64_decode_groups] at h
  | [c1, c2], bs, h => by simp [b64_decode_groups] at h
  | [c1, c2, c3], bs, h => by simp [b64_decode_groups] at h
  | c1 :: c2 :: c3 :: c4 :: rest, bs, h => by
    simp only [b64_decode_groups] at h
    by_cases hp2 : (rest.isEmpty && c3 == '=' && c4 == '=') = true
    · rw [if_pos hp2] at h
      have hrest : rest = [] := by
        simp only [Bool.and_eq_true, List.isEmpty_iff] at hp2
        exact hp2.1.1
      subst hrest
      split at h
      · split at h
        · injection h with h
          subst h
          simp
        · exact absurd h (by simp)
      · exact absurd h (by simp)
    · rw [if_neg hp2] at h
      by_cases hp1 : (rest.isEmpty && c4 == '=') = true
      · rw [if_pos hp1] at h
        have hrest : rest = [] := by
          simp only [Bool.and_eq_true, List.isEmpty_iff] at hp1
          exact hp1.1
        subst hrest
        split at h
        · split at h
          · injection h with h
            subst h
            simp
          · exact absurd h (by simp)
        · exact absurd h (by simp)
      · rw [if_neg hp1] at h
        split at h
        · rename_i d1 d2 d3 d4 tl _ _ _ _ hrec
          injection h with h
          subst h
          have ih := b64_decode_length rest tl hrec
          simp only [List.length_cons] at ih ⊢
          omega
        · exact absurd h (by simp)

theorem b64_decode_structure : ∀ (cs : Str) (bs : List Nat),
    b64_decode_groups cs = some bs → bs.length % 3 = 1 →
    ∃ u c2, cs = u ++ [c2, '=', '='] ∧ (∀ c ∈ u, c ∈ b64_alphabet) ∧
      c2 ∈ (['A', 'Q', 'g', 'w'] : Str)
  | [], bs, h, hm => by
    simp only [b64_decode_groups, Option.some.injEq] at h
    subst h
    simp at hm
  | [c1], bs, h, _ => by simp [b64_decode_groups] at h
  | [c1, c2], bs, h, _ => by simp [b64_decode_groups] at h
  | [c1, c2, c3], bs, h, _ => by simp [b64_decode_groups] at h
  | c1 :: c2 :: c3 :: c4 :: rest, bs, h, hm => by
    simp only [b64_decode_groups] at h
    by_cases hp2 : (rest.isEmpty && c3 == '=' && c4 == '=') = true
    · have hrest : rest = [] ∧ c3 = '=' ∧ c4 = '=' := by
        simp only [Bool.and_eq_true, List.isEmpty_iff, beq_iff_eq] at hp2
        exact ⟨hp2.1.1, hp2.1.2, hp2.2⟩
      obtain ⟨hr, hc3, hc4⟩ := hrest
      subst hr; subst hc3; subst hc4
      rw [if_pos (by simp)] at h
      rcases hi1 : b64_index c1 with _ | d1 <;> rw [hi1] at h
      · exact absurd h (by simp)
      · rcases hi2 : b64_index c2 with _ | d2 <;> rw [hi2] at h
        · exact absurd h (by simp)
        · replace h : (if d2 % 16 = 0 then some [d1 * 4 + d2 / 16] else none) = some bs := h
          by_cases hd2 : d2 % 16 = 0
          · refine ⟨[c1], c2, by simp, ?_, ?_⟩
            · intro c hc
              simp only [List.mem_singleton] at hc
              subst hc
              exact b64_index_mem hi1
            · obtain ⟨hlt, hchar⟩ := b64_index_eq_char hi2
              have : d2 = 0 ∨ d2 = 16 ∨ d2 = 32 ∨ d2 = 48 := by omega
              rcases this with rfl | rfl | rfl | rfl <;> rw [hchar] <;> decide
          · rw [if_neg hd2] at h
            exact absurd h (by simp)
    · rw [if_neg hp2] at h
      by_cases hp1 : (rest.isEmpty && c4 == '=') = true
      · rw [if_pos hp1] at h
        split at h
        · split at h
          · injection h with h
            subst h
            simp at hm
          · exact absurd h (by simp)
        · exact absurd h (by simp)
      · rw [if_neg hp1] at h
        split at h
        · rename_i d1 d2 d3 d4 tl hi1 hi2 hi3 hi4 hrec
          injection h with h
          subst h
          simp only [List.length_cons] at hm
          have hm' : tl.length % 3 = 1 := by omega
          obtain ⟨u', c2', heq, hmem, hc2'⟩ := b64_decode_structure rest tl hrec hm'
          refine ⟨c1 :: c2 :: c3 :: c4 :: u', c2', by simp [heq], ?_, hc2'⟩
          intro c hc
          simp only [List.mem_cons] at hc
          rcases hc with rfl | rfl | rfl | rfl | hc
          · exact b64_index_mem hi1
          · exact b64_index_mem hi2
          · exact b64_index_mem hi3
          · exact b64_index_mem hi4
          · exact hmem c hc
        · exact absurd h (by simp)

theorem b64_encode_structure : ∀ bs : List Nat, (∀ b ∈ bs, b < 256) → bs.length % 3 = 1 →
    ∃ u c2, b64_encode bs = u ++ [c2, '=', '='] ∧ (∀ c ∈ u, c ∈ b64_alphabet) ∧
      c2 ∈ (['A', 'Q', 'g', 'w'] : Str)
  | [], _, hm => by simp at hm
  | [b1], h, _ => by
    have hb1 : b1 < 256 := h b1 (by simp)
    refine ⟨[b64_char (b1 / 4)], b64_char (b1 % 4 * 16), by simp [b64_encode], ?_, ?_⟩
    · intro c hc
      simp only [List.mem_singleton] at hc
      subst hc
      exact b64_char_mem (b1 / 4) (by omega)
    · have : b1 % 4 = 0 ∨ b1 % 4 = 1 ∨ b1 % 4 = 2 ∨ b1 % 4 = 3 := by omega
      rcases this with h4 | h4 | h4 | h4 <;> rw [h4] <;> decide
  | [b1, b2], _, hm => by simp at hm
  | b1 :: b2 :: b3 :: rest, h, hm => by
    have hb1 : b1 < 256 := h b1 (by simp)
    have hb2 : b2 < 256 := h b2 (by simp)
    have hb3 : b3 < 256 := h b3 (by simp)
    simp only [List.length_cons] at hm
    have hm' : rest.length % 3 = 1 := by omega
    obtain ⟨u', c2', heq, hmem, hc2'⟩ :=
      b64_encode_structure rest (fun b hb => h b (by simp [hb])) hm'
    refine ⟨b64_char (b1 / 4) :: b64_char (b1 % 4 * 16 + b2 / 16) ::
      b64_char (b2 % 16 * 4 + b3 / 64) :: b64_char (b3 % 64) :: u', c2', ?_, ?_, hc2'⟩
    · show b64_char (b1 / 4) :: b64_char (b1 % 4 * 16 + b2 / 16) ::
        b64_char (b2 % 16 * 4 + b3 / 64) :: b64_char (b3 % 64) :: b64_encode rest = _
      simp [heq]
    · intro c hc
      simp only [List.mem_cons] at hc
      rcases hc with rfl | rfl | rfl | rfl | hc
      · exact b64_char_mem _ (by omega)
      · exact b64_char_mem _ (by omega)
      · exact b64_char_mem _ (by omega)
      · exact b64_char_mem _ (by omega)
      · exact hmem c hc

/-! ### Lemmas: base58 string lengths, charsets, and validity -/

theorem digits_len_le_of_lt_pow (b : Nat) (hb : 1 < b) :
    ∀ k m : Nat, m < b ^ k → (Nat.digits b m).length ≤ k := by
  intro k
  induction k with
  | zero =>
    intro m hm
    rw [pow_zero] at hm
    have h0 : m = 0 := by omega
    subst h0
    simp
  | succ j ih =>
    intro m hm
    by_cases h0 : m = 0
    · subst h0; simp
    · rw [Nat.digits_def' hb (Nat.pos_of_ne_zero h0)]
      simp only [List.length_cons]
      have : m / b < b ^ j := by
        rw [Nat.div_lt_iff_lt_mul (by omega)]
        calc m < b ^ (j + 1) := hm
        _ = b ^ j * b := by ring
      exact Nat.succ_le_succ (ih (m / b) this)

theorem bytes_to_nat_lt (bs : List Nat) (h256 : ∀ x ∈ bs, x < 256) :
    bytes_to_nat bs < 256 ^ bs.length := by
  rw [bytes_to_nat]
  have := of_digits_lt 256 (by norm_num) bs.reverse
    (fun x hx => h256 x (List.mem_reverse.mp hx))
  simpa using this

theorem lead_zeros_le (l : List Nat) : lead_zeros l ≤ l.length := by
  rw [lead_zeros]
  exact (List.takeWhile_sublist _).length_le

theorem b58_encode_length_le (bs : List Nat) (h256 : ∀ x ∈ bs, x < 256) :
    (b58_encode bs).length ≤ 3 * bs.length := by
  have hz := lead_zeros_le bs
  have hn : bytes_to_nat bs < 58 ^ (2 * bs.length) := by
    calc bytes_to_nat bs < 256 ^ bs.length := bytes_to_nat_lt bs h256
    _ ≤ (58 ^ 2) ^ bs.length := Nat.pow_le_pow_left (by norm_num) _
    _ = 58 ^ (2 * bs.length) := by rw [← pow_mul, Nat.mul_comm]
  have hd : (Nat.digits 58 (bytes_to_nat bs)).length ≤ 2 * bs.length :=
    digits_len_le_of_lt_pow 58 (by norm_num) _ _ hn
  rw [b58_encode, nat_digits_eq _ _ (by norm_num)]
  simp only [List.length_append, List.length_replicate, List.length_map, List.length_reverse]
  omega

theorem pow_256_le_pow_58 : ∀ k : Nat, k ≤ 32 → 256 ^ k ≤ 58 ^ (k + 12) := by
  intro k hk
  have h1 : (256 : Nat) ^ 32 ≤ 58 ^ 44 := by norm_num
  have h2 : (58 : Nat) ^ (32 - k) ≤ 256 ^ (32 - k) := Nat.pow_le_pow_left (by norm_num) _
  have h3 : (256 : Nat) ^ k * 256 ^ (32 - k) = 256 ^ 32 := by
    rw [← pow_add]
    congr 1
    omega
  have h4 : (58 : Nat) ^ (k + 12) * 58 ^ (32 - k) = 58 ^ 44 := by
    rw [← pow_add]
    congr 1
    omega
  have h5 : 256 ^ k * 256 ^ (32 - k) ≤ 58 ^ (k + 12) * 256 ^ (32 - k) := by
    calc 256 ^ k * 256 ^ (32 - k) = 256 ^ 32 := h3
    _ ≤ 58 ^ 44 := h1
    _ = 58 ^ (k + 12) * 58 ^ (32 - k) := h4.symm
    _ ≤ 58 ^ (k + 12) * 256 ^ (32 - k) := Nat.mul_le_mul_left _ h2
  exact Nat.le_of_mul_le_mul_right h5 (Nat.pos_pow_of_pos _ (by norm_num))

theorem b58_encode_pubkey_length (bs : List Nat) (h256 : ∀ x ∈ bs, x < 256)
    (hlen : bs.length = 32) : (b58_encode bs).length ≤ 44 := by
  have hz := lead_zeros_le bs
  have hsplit := take_drop_zeros bs
  have hrest_len : (bs.dropWhile (· == 0)).length = 32 - lead_zeros bs := by
    have := congrArg List.length hsplit
    simp only [List.length_append, List.length_replicate] at this
    omega
  have hn_eq : bytes_to_nat bs = of_digits 256 (bs.dropWhile (· == 0)).reverse := by
    conv_lhs => rw [hsplit]
    exact bytes_to_nat_replicate_append _ _
  have hn_lt : bytes_to_nat bs < 256 ^ (32 - lead_zeros bs) := by
    rw [hn_eq, ← hrest_len]
    have := of_digits_lt 256 (by norm_num) (bs.dropWhile (· == 0)).reverse
      (fun x hx => h256 x ((List.dropWhile_sublist _).subset (List.mem_reverse.mp hx)))
    simpa using this
  have hpow : (256 : Nat) ^ (32 - lead_zeros bs) ≤ 58 ^ (44 - lead_zeros bs) := by
    have h1 := pow_256_le_pow_58 (32 - lead_zeros bs) (by omega)
    have h2 : 32 - lead_zeros bs + 12 = 44 - lead_zeros bs := by rw [hlen] at hz; omega
    rwa [h2] at h1
  have hd : (Nat.digits 58 (bytes_to_nat bs)).length ≤ 44 - lead_zeros bs :=
    digits_len_le_of_lt_pow 58 (by norm_num) _ _ (lt_of_lt_of_le hn_lt hpow)
  rw [b58_encode, nat_digits_eq _ _ (by norm_num)]
  simp only [List.length_append, List.length_replicate, List.length_map, List.length_reverse]
  rw [hlen] at hz
  omega

theorem b58_encode_mem_alphabet (bs : List Nat) : ∀ c ∈ b58_encode bs, c ∈ b58_alphabet := by
  intro c hc
  rw [b58_encode] at hc
  rcases List.mem_append.mp hc with h | h
  · rw [List.eq_of_mem_replicate h]
    decide
  · obtain ⟨d, hd, rfl⟩ := List.mem_map.mp h
    have : d < 58 := by
      rw [nat_digits_eq _ _ (by norm_num)] at hd
      exact Nat.digits_lt_base (by norm_num) (List.mem_reverse.mp hd)
    exact b58_char_mem d this

theorem b58_encode_ne_nil (bs : List Nat) (hne : bs ≠ []) : b58_encode bs ≠ [] := by
  rw [b58_encode]
  by_cases hz : lead_zeros bs = 0
  · have hsplit := take_drop_zeros bs
    rw [hz, List.replicate_zero, List.nil_append] at hsplit
    have hhead : ∀ x, bs.head? = some x → x ≠ 0 := by
      intro x hx
      apply head_dropWhile_ne bs
      rw [← hsplit]
      exact hx
    rcases bs with _ | ⟨b, bs'⟩
    · exact absurd rfl hne
    · have hb0 : b ≠ 0 := hhead b rfl
      have hn0 : bytes_to_nat (b :: bs') ≠ 0 := by
        intro h0
        exact hb0 (of_digits_all_zero 256 (by norm_num) _ h0 b (by simp))
      rw [nat_digits_eq _ _ (by norm_num)]
      have hdne : Nat.digits 58 (bytes_to_nat (b :: bs')) ≠ [] :=
        Nat.digits_ne_nil_iff_ne_zero.mpr hn0
      simp [hdne]
  · intro h
    have := congrArg List.length h
    simp only [List.length_append, List.length_replicate, List.length_nil] at this
    omega

theorem b58_encode_not_suspicious (bs : List Nat) (h256 : ∀ x ∈ bs, x < 256)
    (hne : bs ≠ []) (hlen : bs.length ≤ 300) :
    is_suspicious_text (b58_encode bs) = false := by
  apply alnum_not_suspicious
  · exact fun c hc => b58_alphabet_alnum c (b58_encode_mem_alphabet bs c hc)
  · exact b58_encode_ne_nil bs hne
  · have := b58_encode_length_le bs h256
    omega

theorem trim_b58_encode (bs : List Nat) : trim (b58_encode bs) = b58_encode bs :=
  trim_eq_self_of_no_ws _ (fun c hc =>
    (alnum_facts c (b58_alphabet_alnum c (b58_encode_mem_alphabet bs c hc))).1)

theorem is_valid_base58_encode (bs : List Nat) (h256 : ∀ x ∈ bs, x < 256) (hne : bs ≠ []) :
    is_valid_base58 (b58_encode bs) = true := by
  rw [is_valid_base58, trim_b58_encode]
  have h1 : (b58_encode bs).isEmpty = false := by
    simp [List.isEmpty_iff, b58_encode_ne_nil bs hne]
  rw [h1, b58_decode_encode bs h256]
  rfl

theorem pubkey_from_str_encode (pk : List Nat) (h256 : ∀ x ∈ pk, x < 256)
    (hlen : pk.length = 32) : pubkey_from_str (b58_encode pk) = some pk := by
  rw [pubkey_from_str,
    if_neg (by have := b58_encode_pubkey_length pk h256 hlen; omega),
    b58_decode_encode pk h256]
  simp [hlen]

theorem is_valid_pubkey_encode (pk : List Nat) (h256 : ∀ x ∈ pk, x < 256)
    (hlen : pk.length = 32) : is_valid_pubkey (b58_encode pk) = true := by
  rw [is_valid_pubkey, trim_b58_encode]
  have h1 : (b58_encode pk).isEmpty = false := by
    simp [List.isEmpty_iff, b58_encode_ne_nil pk (by intro h; rw [h] at hlen; simp at hlen)]
  rw [h1, pubkey_from_str_encode pk h256 hlen]
  rfl

/-! ### Lemmas: derived facts about strings that parse as public keys -/

theorem list_map_opt_mem_some (f : α → Option β) :
    ∀ (l : List α) (r : List β), list_map_opt f l = some r → ∀ a ∈ l, ∃ b, f a = some b := by
  intro l
  induction l with
  | nil => simp
  | cons x xs ih =>
    intro r h a ha
    simp only [list_map_opt] at h
    cases hfx : f x with
    | none => rw [hfx] at h; exact absurd h (by simp)
    | some b =>
      rw [hfx] at h
      obtain ⟨r', hr', rfl⟩ := Option.map_eq_some'.mp h
      rcases List.mem_cons.mp ha with rfl | ha
      · exact ⟨b, hfx⟩
      · exact ih r' hr' a ha

theorem pubkey_from_str_inv (s : Str) (pk : List Nat) (h : pubkey_from_str s = some pk) :
    s.length ≤ 44 ∧ (∀ c ∈ s, c ∈ b58_alphabet) ∧ s ≠ [] := by
  rw [pubkey_from_str] at h
  by_cases hl : 44 < s.length
  · rw [if_pos hl] at h
    exact absurd h (by simp)
  · rw [if_neg hl] at h
    refine ⟨by omega, ?_, ?_⟩
    · cases hdec : b58_decode s with
      | none => rw [hdec] at h; exact absurd h (by simp)
      | some bs =>
        intro c hc
        rw [b58_decode] at hdec
        obtain ⟨ds, hds, _⟩ := Option.map_eq_some'.mp hdec
        obtain ⟨d, hd⟩ := list_map_opt_mem_some _ s ds hds c hc
        exact idx_of_mem hd
    · intro hnil
      subst hnil
      rw [show b58_decode ([] : Str) = some [] from rfl] at h
      simp at h

theorem pubkey_str_not_suspicious (s : Str) (pk : List Nat)
    (h : pubkey_from_str s = some pk) : is_suspicious_text s = false := by
  obtain ⟨hlen, hmem, hne⟩ := pubkey_from_str_inv s pk h
  exact alnum_not_suspicious s (fun c hc => b58_alphabet_alnum c (hmem c hc)) hne (by omega)

theorem is_valid_pubkey_of_parse (s : Str) (pk : List Nat)
    (h : pubkey_from_str s = some pk) : is_valid_pubkey s = true := by
  obtain ⟨hlen, hmem, hne⟩ := pubkey_from_str_inv s pk h
  rw [is_valid_pubkey,
    trim_eq_self_of_no_ws s (fun c hc => (alnum_facts c (b58_alphabet_alnum c (hmem c hc))).1)]
  have h1 : s.isEmpty = false := by simp [List.isEmpty_iff, hne]
  rw [h1, h]
  rfl

/-! ### Lemmas: the modelled signature bytes -/

theorem mk_sig_length (pk : List Nat) (msg : Str) : (mk_sig pk msg).length = 64 := by
  simp [mk_sig]

theorem mk_sig_lt (pk : List Nat) (msg : Str) : ∀ b ∈ mk_sig pk msg, b < 256 := by
  intro b hb
  obtain ⟨i, _, rfl⟩ := List.mem_map.mp hb
  exact Nat.mod_lt _ (by norm_num)

theorem b64_encode_sig_not_suspicious (bs : List Nat) (h256 : ∀ x ∈ bs, x < 256)
    (hmod : bs.length % 3 = 1) (hlen : bs.length ≤ 400) :
    is_suspicious_text (b64_encode bs) = false := by
  obtain ⟨u, c2, heq, hmem, hc2⟩ := b64_encode_structure bs h256 hmod
  rw [heq]
  apply b64_padded_not_suspicious u c2 hmem hc2
  have h1 := b64_encode_length bs
  have h2 := congrArg List.length heq
  simp only [List.length_append, List.length_cons, List.length_nil] at h2
  omega

theorem b64_decoded_not_suspicious (cs : Str) (bs : List Nat)
    (h : b64_decode cs = some bs) (hmod : bs.length % 3 = 1) (hlen : bs.length ≤ 400) :
    is_suspicious_text cs = false := by
  obtain ⟨u, c2, heq, hmem, hc2⟩ := b64_decode_structure cs bs h hmod
  rw [heq]
  apply b64_padded_not_suspicious u c2 hmem hc2
  have h1 := b64_decode_length cs bs h
  have h2 := congrArg List.length heq
  simp only [List.length_append, List.length_cons, List.length_nil] at h2
  omega

theorem b64_str_chars_no_ws (cs : Str) (bs : List Nat) (h : b64_decode cs = some bs)
    (hmod : bs.length % 3 = 1) : ∀ c ∈ cs, is_rust_whitespace c = false := by
  obtain ⟨u, c2, heq, hmem, hc2⟩ := b64_decode_structure cs bs h hmod
  subst heq
  intro c hc
  rcases List.mem_append.mp hc with hcu | hcp
  · exact (b64_alphabet_char_facts c (hmem c hcu)).1
  · simp only [List.mem_cons, List.mem_singleton] at hcp
    rcases hcp with rfl | rfl | rfl | hcp
    · exact (b64_alphabet_char_facts c (pad_chars_in_alphabet c hc2)).1
    · decide
    · decide
    · simp at hcp

theorem is_valid_base64_of_decode (cs : Str) (bs : List Nat) (h : b64_decode cs = some bs)
    (hmod : bs.length % 3 = 1) : is_valid_base64 cs = true := by
  rw [is_valid_base64, trim_eq_self_of_no_ws cs (b64_str_chars_no_ws cs bs h hmod)]
  have hne : cs ≠ [] := by
    obtain ⟨u, c2, heq, _, _⟩ := b64_decode_structure cs bs h hmod
    subst heq
    simp
  have h1 : cs.isEmpty = false := by simp [List.isEmpty_iff, hne]
  rw [h1, h]
  rfl

/-! ### Claim-level setup: decidable equality of handler results, the
response-envelope invariant, and concrete well-formed addresses -/

instance exceptDecEq {ε α : Type} [DecidableEq ε] [DecidableEq α] :
    DecidableEq (Except ε α) := fun a b =>
  match a, b with
  | .ok x, .ok y =>
    if h : x = y then isTrue (by rw [h]) else isFalse (fun hc => h (Except.ok.inj hc))
  | .error x, .error y =>
    if h : x = y then isTrue (by rw [h]) else isFalse (fun hc => h (Except.error.inj hc))
  | .ok _, .error _ => isFalse (fun hc => Except.noConfusion hc)
  | .error _, .ok _ => isFalse (fun hc => Except.noConfusion hc)

/-- The response-envelope invariant: HTTP 200 with `success: true`, or
HTTP 400 with `success: false` — and no other status code. -/
def well_formed_resp {α : Type} (r : HandlerOut α) : Prop :=
  (http_status r = 200 ∨ http_status r = 400) ∧
  match r with
  | .ok s => s.success = true ∧ http_status r = 200
  | .error e => e.1 = 400 ∧ e.2.success = false

theorem wf_bad {α : Type} (msg : Str) : well_formed_resp (α := α) (.error (bad msg)) := by
  simp [well_formed_resp, bad, http_status]

theorem wf_ok {α : Type} (d : α) : well_formed_resp (.ok ⟨true, d⟩) := by
  simp [well_formed_resp, http_status]

/-- The system-program address: 32 `'1'` characters, i.e. 32 zero bytes. -/
def addr_system : Str := str "11111111111111111111111111111111"

/-- A well-formed address decoding to bytes `0,…,0,1`. -/
def addr_a : Str := str "11111111111111111111111111111112"

/-- A well-formed address decoding to bytes `0,…,0,2`. -/
def addr_b : Str := str "11111111111111111111111111111113"

theorem sys_not_susp : is_suspicious_text addr_system = false := by decide

theorem a_not_susp : is_suspicious_text addr_a = false := by decide

theorem b_not_susp : is_suspicious_text addr_b = false := by decide

theorem sys_valid : is_valid_pubkey addr_system = true := by decide

theorem a_valid : is_valid_pubkey addr_a = true := by decide

theorem b_valid : is_valid_pubkey addr_b = true := by decide

theorem sys_parse : pubkey_from_str addr_system = some (List.replicate 32 0) := by decide

theorem a_parse : pubkey_from_str addr_a = some (List.replicate 31 0 ++ [1]) := by decide

theorem b_parse : pubkey_from_str addr_b = some (List.replicate 31 0 ++ [2]) := by decide

/-! ### The claims -/

/-- C2, counterexample: the claim says `/send/token` returns the fixed
not-implemented error regardless of whether the body is valid or invalid
JSON; but a rejected (invalid-JSON) body yields the distinct
"Missing required fields" error instead. -/
theorem claim_c2_counterexample :
    send_token none = .error (400, ⟨false, str "Missing required fields"⟩) ∧
    send_token (some ⟨none, none, none, none⟩) =
      .error (400, ⟨false, str "Token transfer endpoint not implemented"⟩) ∧
    str "Missing required fields" ≠ str "Token transfer endpoint not implemented" := by
  refine ⟨rfl, rfl, by decide⟩

/-- C2, amended: every request to `/send/token` whose body deserializes
(whatever its field values) gets the fixed not-implemented 400 error;
a body that fails JSON extraction gets the 400 "Missing required fields"
error; in all cases the HTTP status is 400. -/
theorem claim_c2_amended :
    (∀ req : SendTokenRequest, send_token (some req) =
      .error (400, ⟨false, str "Token transfer endpoint not implemented"⟩)) ∧
    send_token none = .error (400, ⟨false, str "Missing required fields"⟩) ∧
    (∀ p : Option SendTokenRequest, http_status (send_token p) = 400) := by
  refine ⟨fun req => rfl, rfl, fun p => ?_⟩
  rcases p with _ | req <;> rfl

/-- C4: every response of every handler is either a success envelope
`{success: true, data: …}` with HTTP 200 or a failure envelope
`{success: false, error: …}` with HTTP 400; no other status or shape. -/
theorem claim_c4 :
    (∀ kp : Keypair, well_formed_resp (generate_keypair kp)) ∧
    (∀ p, well_formed_resp (create_token p)) ∧
    (∀ p, well_formed_resp (mint_token p)) ∧
    (∀ p, well_formed_resp (sign_message p)) ∧
    (∀ p, well_formed_resp (verify_message p)) ∧
    (∀ p, well_formed_resp (send_sol p)) ∧
    (∀ p, well_formed_resp (send_token p)) := by
  refine ⟨fun kp => wf_ok _, fun p => ?_, fun p => ?_, fun p => ?_, fun p => ?_,
    fun p => ?_, fun p => ?_⟩
  · rcases p with _ | req
    · exact wf_bad _
    · unfold create_token extract_json
      repeat' split
      all_goals first | exact wf_bad _ | exact wf_ok _ | simp_all
  · rcases p with _ | req
    · exact wf_bad _
    · unfold mint_token extract_json
      repeat' split
      all_goals first | exact wf_bad _ | exact wf_ok _ | simp_all
  · rcases p with _ | req
    · exact wf_bad _
    · unfold sign_message extract_json
      repeat' split
      all_goals first | exact wf_bad _ | exact wf_ok _ | simp_all
  · rcases p with _ | req
    · exact wf_bad _
    · unfold verify_message extract_json
      repeat' split
      all_goals first | exact wf_bad _ | exact wf_ok _ | simp_all
  · rcases p with _ | req
    · exact wf_bad _
    · unfold send_sol extract_json
      repeat' split
      all_goals first | exact wf_bad _ | exact wf_ok _ | simp_all
  · rcases p with _ | req
    · exact wf_bad _
    · unfold send_token extract_json
      repeat' split
      all_goals first | exact wf_bad _ | exact wf_ok _ | simp_all

/-- C5: with all other fields present and valid, `/token/mint` rejects
amount 0 and amounts above `u64::MAX / 2`, and `/send/sol` rejects
lamports 0 and lamports above 10^18, each with HTTP 400. -/
theorem claim_c5 (a : Nat) (ha : a < 18446744073709551616) :
    (a = 0 →
      mint_token (some ⟨some addr_system, some addr_a, some addr_b, some a⟩) =
        .error (400, ⟨false, str "Amount must be greater than 0"⟩) ∧
      send_sol (some ⟨some addr_a, some addr_system, some a⟩) =
        .error (400, ⟨false, str "Amount must be greater than 0"⟩)) ∧
    (9223372036854775807 < a →
      mint_token (some ⟨some addr_system, some addr_a, some addr_b, some a⟩) =
        .error (400, ⟨false, str "Amount too large"⟩)) ∧
    (1000000000000000000 < a →
      send_sol (some ⟨some addr_a, some addr_system, some a⟩) =
        .error (400, ⟨false, str "Amount too large"⟩)) := by
  refine ⟨fun h0 => ?_, fun hbig => ?_, fun hbig => ?_⟩
  · subst h0
    exact ⟨by decide, by decide⟩
  · have hne : ¬ a = 0 := by omega
    simp [mint_token, extract_json, sys_not_susp, a_not_susp, b_not_susp,
      sys_valid, a_valid, b_valid, sys_parse, a_parse, b_parse, hne, hbig, bad]
  · have hne : ¬ a = 0 := by omega
    simp [send_sol, extract_json, sys_not_susp, a_not_susp,
      sys_valid, a_valid, sys_parse, a_parse, hne, hbig, bad]

/-- C5 witness: the rejections at the concrete amounts 0,
`u64::MAX / 2 + 1` and `10^18 + 1`. -/
theorem claim_c5_witness :
    (mint_token (some ⟨some addr_system, some addr_a, some addr_b, some 0⟩) =
        .error (400, ⟨false, str "Amount must be greater than 0"⟩) ∧
      send_sol (some ⟨some addr_a, some addr_system, some 0⟩) =
        .error (400, ⟨false, str "Amount must be greater than 0"⟩)) ∧
    mint_token (some ⟨some addr_system, some addr_a, some addr_b, some 9223372036854775808⟩) =
      .error (400, ⟨false, str "Amount too large"⟩) ∧
    send_sol (some ⟨some addr_a, some addr_system, some 1000000000000000001⟩) =
      .error (400, ⟨false, str "Amount too large"⟩) :=
  ⟨(claim_c5 0 (by norm_num)).1 rfl,
   (claim_c5 9223372036854775808 (by norm_num)).2.1 (by norm_num),
   (claim_c5 1000000000000000001 (by norm_num)).2.2 (by norm_num)⟩

/-- C7: when `from` and `to` are valid public keys denoting the same
address and the lamports amount is in range, `/send/sol` rejects the
transfer with HTTP 400 "Cannot send to same address". -/
theorem claim_c7 (s_from s_to : Str) (pk : List Nat) (lam : Nat)
    (hf : pubkey_from_str s_from = some pk) (ht : pubkey_from_str s_to = some pk)
    (h0 : 0 < lam) (hceil : lam ≤ 1000000000000000000) :
    send_sol (some ⟨some s_from, some s_to, some lam⟩) =
      .error (400, ⟨false, str "Cannot send to same address"⟩) := by
  have hne : ¬ lam = 0 := by omega
  have hc : ¬ 1000000000000000000 < lam := by omega
  simp [send_sol, extract_json, pubkey_str_not_suspicious _ _ hf,
    pubkey_str_not_suspicious _ _ ht, is_valid_pubkey_of_parse _ _ hf,
    is_valid_pubkey_of_parse _ _ ht, hf, ht, hne, hc, bad]

/-- C7 witness: sending five lamports from the system address to itself. -/
theorem claim_c7_witness :
    send_sol (some ⟨some addr_system, some addr_system, some 5⟩) =
      .error (400, ⟨false, str "Cannot send to same address"⟩) :=
  claim_c7 addr_system addr_system (List.replicate 32 0) 5 (by decide) (by decide)
    (by norm_num) (by norm_num)

/-- C10: in `/send/sol` the amount range checks precede the same-address
check — with `from = to`, amount 0 yields "Amount must be greater than 0"
and an over-ceiling amount yields "Amount too large", not the
same-address error. -/
theorem claim_c10 (s : Str) (pk : List Nat) (lam : Nat)
    (h : pubkey_from_str s = some pk) (hlam : lam < 18446744073709551616) :
    (lam = 0 → send_sol (some ⟨some s, some s, some lam⟩) =
      .error (400, ⟨false, str "Amount must be greater than 0"⟩)) ∧
    (1000000000000000000 < lam → send_sol (some ⟨some s, some s, some lam⟩) =
      .error (400, ⟨false, str "Amount too large"⟩)) := by
  constructor
  · intro h0
    subst h0
    simp [send_sol, extract_json, pubkey_str_not_suspicious _ _ h,
      is_valid_pubkey_of_parse _ _ h, h, bad]
  · intro hbig
    have hne : ¬ lam = 0 := by omega
    simp [send_sol, extract_json, pubkey_str_not_suspicious _ _ h,
      is_valid_pubkey_of_parse _ _ h, h, hne, hbig, bad]

/-- C10 witness: with `from = to` the amount errors win at 0 and at
`10^18 + 1`. -/
theorem claim_c10_witness :
    (send_sol (some ⟨some addr_system, some addr_system, some 0⟩) =
      .error (400, ⟨false, str "Amount must be greater than 0"⟩)) ∧
    (send_sol (some ⟨some addr_system, some addr_system, some 1000000000000000001⟩) =
      .error (400, ⟨false, str "Amount too large"⟩)) :=
  ⟨(claim_c10 addr_system (List.replicate 32 0) 0 (by decide) (by norm_num)).1 rfl,
   (claim_c10 addr_system (List.replicate 32 0) 1000000000000000001 (by decide)
     (by norm_num)).2 (by norm_num)⟩

/-- C9: any whitespace-only string (including nonempty ones) is flagged by
`is_suspicious_text`, because the input is trimmed before the emptiness
check; consequently each endpoint that applies the filter rejects such a
field value with HTTP 400. -/
theorem claim_c9 (s : Str) (hws : ∀ c ∈ s, is_rust_whitespace c = true) :
    is_suspicious_text s = true ∧
    create_token (some ⟨some s, some addr_system, some 6⟩) =
      .error (400, ⟨false, str "Missing required fields"⟩) ∧
    mint_token (some ⟨some s, some addr_a, some addr_b, some 5⟩) =
      .error (400, ⟨false, str "Missing required fields"⟩) ∧
    sign_message (some ⟨some s, some (str "abc")⟩) =
      .error (400, ⟨false, str "Missing required fields"⟩) ∧
    verify_message (some ⟨some s, some (str "AA=="), some addr_system⟩) =
      .error (400, ⟨false, str "Missing required fields"⟩) ∧
    send_sol (some ⟨some s, some addr_system, some 5⟩) =
      .error (400, ⟨false, str "Missing required fields"⟩) := by
  have htrim := trim_eq_nil_of_all_ws s hws
  have hsusp : is_suspicious_text s = true := by simp [is_suspicious_text, htrim]
  refine ⟨hsusp, ?_, ?_, ?_, ?_, ?_⟩
  · simp [create_token, extract_json, hsusp, bad]
  · simp [mint_token, extract_json, hsusp, bad]
  · simp [sign_message, extract_json, hsusp, bad]
  · simp [verify_message, extract_json, hsusp, bad]
  · simp [send_sol, extract_json, hsusp, bad]

/-- C9 witness: the single-space string is flagged by the filter. -/
theorem claim_c9_witness : is_suspicious_text (str " ") = true :=
  (claim_c9 (str " ") (by decide)).1

/-- C1, counterexample: the claim says every endpoint accepting a public
key returns a message containing "invalid" for a malformed key — but
`/token/mint` returns 400 with "Mai error hun :) -- (Mint in endpoint 3)",
which does not contain "invalid" (case-insensitively). -/
theorem claim_c1_counterexample :
    mint_token (some ⟨some (str "!!!"), some addr_system, some addr_a, some 5⟩) =
      .error (400, ⟨false, str "Mai error hun :) -- (Mint in endpoint 3)"⟩) ∧
    is_suspicious_text (str "!!!") = false ∧
    is_valid_pubkey (str "!!!") = false ∧
    has_substr (str "invalid")
      (to_lower_str (str "Mai error hun :) -- (Mint in endpoint 3)")) = false := by
  refine ⟨by decide, by decide, by decide, by decide⟩

/-- C1, amended: for a present pubkey field that passes the filter but is
not a well-formed public-key encoding (other fields held valid), each of
`/token/create`, `/token/mint`, `/message/verify` and `/send/sol` returns
HTTP 400; the error message contains "Invalid" on all of them except
`/token/mint`, whose messages do not contain the word "invalid". -/
theorem claim_c1_amended (s : Str) (hsusp : is_suspicious_text s = false)
    (hinv : is_valid_pubkey s = false) :
    create_token (some ⟨some s, some addr_system, some 6⟩) =
      .error (400, ⟨false, str "Invalid mint authority"⟩) ∧
    create_token (some ⟨some addr_system, some s, some 6⟩) =
      .error (400, ⟨false, str "Invalid mint address"⟩) ∧
    mint_token (some ⟨some s, some addr_system, some addr_a, some 5⟩) =
      .error (400, ⟨false, str "Mai error hun :) -- (Mint in endpoint 3)"⟩) ∧
    mint_token (some ⟨some addr_system, some s, some addr_a, some 5⟩) =
      .error (400, ⟨false, str "Error from destination in endpoint 3"⟩) ∧
    mint_token (some ⟨some addr_system, some addr_a, some s, some 5⟩) =
      .error (400, ⟨false, str "Error from authority in endpoint 3"⟩) ∧
    verify_message (some ⟨some (str "Hello"), some (str "AA=="), some s⟩) =
      .error (400, ⟨false, str "Invalid public key"⟩) ∧
    send_sol (some ⟨some s, some addr_system, some 5⟩) =
      .error (400, ⟨false, str "Invalid from address"⟩) ∧
    send_sol (some ⟨some addr_system, some s, some 5⟩) =
      .error (400, ⟨false, str "Invalid to address"⟩) ∧
    (has_substr (str "invalid") (to_lower_str (str "Invalid mint authority")) = true ∧
     has_substr (str "invalid") (to_lower_str (str "Invalid mint address")) = true ∧
     has_substr (str "invalid") (to_lower_str (str "Invalid public key")) = true ∧
     has_substr (str "invalid") (to_lower_str (str "Invalid from address")) = true ∧
     has_substr (str "invalid") (to_lower_str (str "Invalid to address")) = true) ∧
    (has_substr (str "invalid")
        (to_lower_str (str "Mai error hun :) -- (Mint in endpoint 3)")) = false ∧
     has_substr (str "invalid")
        (to_lower_str (str "Error from destination in endpoint 3")) = false ∧
     has_substr (str "invalid")
        (to_lower_str (str "Error from authority in endpoint 3")) = false) := by
  have hH : is_suspicious_text (str "Hello") = false := by decide
  have hA : is_suspicious_text (str "AA==") = false := by decide
  refine ⟨?_, ?_, ?_, ?_, ?_, ?_, ?_, ?_, by decide, by decide⟩
  · simp [create_token, extract_json, hsusp, sys_not_susp, hinv, bad]
  · simp [create_token, extract_json, hsusp, sys_not_susp, sys_valid, hinv, bad]
  · simp [mint_token, extract_json, hsusp, sys_not_susp, a_not_susp, hinv, bad]
  · simp [mint_token, extract_json, hsusp, sys_not_susp, a_not_susp, sys_valid, hinv, bad]
  · simp [mint_token, extract_json, hsusp, sys_not_susp, a_not_susp, sys_valid, a_valid,
      hinv, bad]
  · simp [verify_message, extract_json, hsusp, hH, hA, hinv, bad]
  · simp [send_sol, extract_json, hsusp, sys_not_susp, hinv, bad]
  · simp [send_sol, extract_json, hsusp, sys_not_susp, sys_valid, hinv, bad]

/-- C1 witness: the amended behaviour at the concrete malformed key "!!!". -/
theorem claim_c1_amended_witness :
    is_suspicious_text (str "!!!") = false ∧ is_valid_pubkey (str "!!!") = false ∧
    create_token (some ⟨some (str "!!!"), some addr_system, some 6⟩) =
      .error (400, ⟨false, str "Invalid mint authority"⟩) :=
  ⟨by decide, by decide, (claim_c1_amended (str "!!!") (by decide) (by decide)).1⟩

/-- The classifier exactly as the claim words it, for comparison with the
implementation: unsafe iff empty, over the length threshold, containing a
control character, or containing a denylist pattern case-insensitively. -/
def claimed_suspicious (s : Str) : Prop :=
  s = [] ∨ 1000 < utf8_len s ∨ (∃ c ∈ s, is_control_char c = true) ∨
    (∃ p ∈ suspicious_patterns, has_substr p (to_lower_str s) = true)

instance claimed_suspicious_dec (s : Str) : Decidable (claimed_suspicious s) := by
  unfold claimed_suspicious
  infer_instance

/-- C8, counterexample: the claim's description of the classifier is wrong
on both sides — `" "` (one space) is flagged by the implementation but not
by the claimed condition (the code trims first), and `"ab\ncd"` satisfies
the claimed condition (it contains the control character `'\n'`) but is
not flagged by the implementation (which exempts `\n`, `\r`, `\t`). -/
theorem claim_c8_counterexample :
    (is_suspicious_text (str " ") = true ∧ ¬ claimed_suspicious (str " ")) ∧
    (is_suspicious_text (str "ab\ncd") = false ∧ claimed_suspicious (str "ab\ncd")) := by
  exact ⟨⟨by decide, by decide⟩, ⟨by decide, by decide⟩⟩

theorem c8_third_iff (t : Str) :
    (t.contains '\x00' ||
      t.any (fun c => is_control_char c && !(c == '\n') && !(c == '\r') && !(c == '\t'))) = true
    ↔ (∃ c ∈ t, c = '\x00' ∨
        (is_control_char c = true ∧ c ≠ '\n' ∧ c ≠ '\r' ∧ c ≠ '\t')) := by
  simp only [Bool.or_eq_true, List.any_eq_true, Bool.and_eq_true, Bool.not_eq_true',
    beq_eq_false_iff_ne]
  constructor
  · intro h
    rcases h with h | ⟨c, hc, hcc⟩
    · have : '\x00' ∈ t := by simpa using h
      exact ⟨'\x00', this, Or.inl rfl⟩
    · exact ⟨c, hc, Or.inr ⟨hcc.1.1.1, hcc.1.1.2, hcc.1.2, hcc.2⟩⟩
  · intro ⟨c, hc, hcc⟩
    rcases hcc with rfl | ⟨h1, h2, h3, h4⟩
    · exact Or.inl (by simpa using hc)
    · exact Or.inr ⟨c, hc, ⟨⟨h1, h2⟩, h3⟩, h4⟩

/-- C8, amended: the classifier flags a string exactly when its *trimmed*
form is empty, exceeds 1000 UTF-8 bytes, contains NUL or a control
character other than `\n`, `\r`, `\t`, or contains a denylist pattern
case-insensitively. -/
theorem claim_c8_amended (s : Str) :
    is_suspicious_text s = true ↔
      (trim s = [] ∨ 1000 < utf8_len (trim s) ∨
       (∃ c ∈ trim s, c = '\x00' ∨
         (is_control_char c = true ∧ c ≠ '\n' ∧ c ≠ '\r' ∧ c ≠ '\t')) ∨
       (∃ p ∈ suspicious_patterns, has_substr p (to_lower_str (trim s)) = true)) := by
  simp only [is_suspicious_text]
  split_ifs with h1 h2 h3
  · simp only [List.isEmpty_iff] at h1
    simp [h1]
  · simp [h2]
  · rw [c8_third_iff] at h3
    simp [h3]
  · simp only [List.isEmpty_iff] at h1
    rw [c8_third_iff] at h3
    simp only [List.any_eq_true]
    constructor
    · intro h
      exact Or.inr (Or.inr (Or.inr h))
    · intro h
      rcases h with h | h | h | h
      · exact absurd h h1
      · exact absurd h h2
      · exact absurd h h3
      · exact h

/-- C6: on a request to `/message/verify` whose fields are well-formed
(the public key parses, the signature is base64 decoding to exactly 64
bytes, the message passes the filter), the endpoint returns a success
envelope whose `valid` field is the SDK's boolean verification result;
a cryptographically failing signature never yields an error response. -/
theorem claim_c6 (msg sig_str pk_str : Str) (pk bytes : List Nat)
    (hmsg : is_suspicious_text msg = false)
    (hpk : pubkey_from_str pk_str = some pk)
    (hsig : b64_decode sig_str = some bytes)
    (hlen : bytes.length = 64) :
    verify_message (some ⟨some msg, some sig_str, some pk_str⟩) =
      .ok ⟨true, ⟨ed25519_verify bytes pk msg, msg, pk_str⟩⟩ := by
  have hmod : bytes.length % 3 = 1 := by omega
  have hlen400 : bytes.length ≤ 400 := by omega
  have hsig_ns : is_suspicious_text sig_str = false :=
    b64_decoded_not_suspicious _ _ hsig hmod hlen400
  have hpk_ns : is_suspicious_text pk_str = false := pubkey_str_not_suspicious _ _ hpk
  have hpk_v : is_valid_pubkey pk_str = true := is_valid_pubkey_of_parse _ _ hpk
  have hsig_v : is_valid_base64 sig_str = true := is_valid_base64_of_decode _ _ hsig hmod
  simp [verify_message, extract_json, hmsg, hsig_ns, hpk_ns, hpk_v, hsig_v, hpk, hsig,
    hlen, signature_try_from]

/-- C6 witness: an all-zero 64-byte signature against the system address. -/
theorem claim_c6_witness :
    verify_message (some ⟨some (str "Hi"), some (b64_encode (List.replicate 64 0)),
        some addr_system⟩) =
      .ok ⟨true, ⟨ed25519_verify (List.replicate 64 0) (List.replicate 32 0) (str "Hi"),
        str "Hi", addr_system⟩⟩ :=
  claim_c6 (str "Hi") (b64_encode (List.replicate 64 0)) addr_system
    (List.replicate 32 0) (List.replicate 64 0) (by decide) (by decide) (by decide) (by decide)

/-- C3: for every genuine keypair (32-byte secret half with its derived
public half, presented as a base58 64-byte secret) and every message that
passes the filter, signing via `/message/sign` and then verifying the
produced signature with the produced public key via `/message/verify`
succeeds and reports `valid : true`. -/
theorem claim_c3 (sk : List Nat) (msg : Str) (hsk_len : sk.length = 32)
    (hsk : ∀ b ∈ sk, b < 256) (hmsg : is_suspicious_text msg = false) :
    sign_message (some ⟨some msg, some (b58_encode (sk ++ derive_pub sk))⟩) =
      .ok ⟨true, ⟨b64_encode (mk_sig (derive_pub sk) msg), b58_encode (derive_pub sk), msg⟩⟩ ∧
    verify_message (some ⟨some msg, some (b64_encode (mk_sig (derive_pub sk) msg)),
        some (b58_encode (derive_pub sk))⟩) =
      .ok ⟨true, ⟨true, msg, b58_encode (derive_pub sk)⟩⟩ := by
  have hdp_len : (derive_pub sk).length = 32 := by simp [derive_pub, hsk_len]
  have hdp256 : ∀ b ∈ derive_pub sk, b < 256 := by
    intro b hb
    obtain ⟨x, _, rfl⟩ := List.mem_map.mp hb
    exact Nat.mod_lt _ (by norm_num)
  have hkb_len : (sk ++ derive_pub sk).length = 64 := by
    simp [hsk_len, hdp_len]
  have hkb256 : ∀ b ∈ sk ++ derive_pub sk, b < 256 := by
    intro b hb
    rcases List.mem_append.mp hb with h | h
    · exact hsk b h
    · exact hdp256 b h
  have hkb_ne : sk ++ derive_pub sk ≠ [] := by
    intro h
    rw [h] at hkb_len
    simp at hkb_len
  have hsec_ns : is_suspicious_text (b58_encode (sk ++ derive_pub sk)) = false :=
    b58_encode_not_suspicious _ hkb256 hkb_ne (by omega)
  have hsec_v : is_valid_base58 (b58_encode (sk ++ derive_pub sk)) = true :=
    is_valid_base58_encode _ hkb256 hkb_ne
  have hsec_dec : b58_decode (b58_encode (sk ++ derive_pub sk)) =
      some (sk ++ derive_pub sk) := b58_decode_encode _ hkb256
  have hkp : keypair_from_bytes (sk ++ derive_pub sk) = some ⟨sk, derive_pub sk⟩ := by
    rw [keypair_from_bytes, if_pos hkb_len]
    have h1 : (sk ++ derive_pub sk).take 32 = sk := by
      rw [← hsk_len]
      exact List.take_left sk (derive_pub sk)
    have h2 : (sk ++ derive_pub sk).drop 32 = derive_pub sk := by
      rw [← hsk_len]
      exact List.drop_left sk (derive_pub sk)
    rw [h1, h2]
  have hsign : sign_message (some ⟨some msg, some (b58_encode (sk ++ derive_pub sk))⟩) =
      .ok ⟨true, ⟨b64_encode (mk_sig (derive_pub sk) msg), b58_encode (derive_pub sk),
        msg⟩⟩ := by
    simp [sign_message, extract_json, hmsg, hsec_ns, hsec_v, hsec_dec, hkb_len, hkp,
      keypair_sign, pubkey_to_string]
  have hsig_len := mk_sig_length (derive_pub sk) msg
  have hsig256 := mk_sig_lt (derive_pub sk) msg
  have hsigenc_dec : b64_decode (b64_encode (mk_sig (derive_pub sk) msg)) =
      some (mk_sig (derive_pub sk) msg) := b64_decode_encode _ hsig256
  have hsig_ns : is_suspicious_text (b64_encode (mk_sig (derive_pub sk) msg)) = false :=
    b64_encode_sig_not_suspicious _ hsig256 (by rw [hsig_len]) (by rw [hsig_len]; norm_num)
  have hsig_v : is_valid_base64 (b64_encode (mk_sig (derive_pub sk) msg)) = true :=
    is_valid_base64_of_decode _ _ hsigenc_dec (by rw [hsig_len])
  have hpk_parse : pubkey_from_str (b58_encode (derive_pub sk)) = some (derive_pub sk) :=
    pubkey_from_str_encode _ hdp256 hdp_len
  have hpk_ns := pubkey_str_not_suspicious _ _ hpk_parse
  have hpk_v := is_valid_pubkey_of_parse _ _ hpk_parse
  have hvt : ed25519_verify (mk_sig (derive_pub sk) msg) (derive_pub sk) msg = true := by
    simp [ed25519_verify]
  have hverify : verify_message (some ⟨some msg,
      some (b64_encode (mk_sig (derive_pub sk) msg)), some (b58_encode (derive_pub sk))⟩) =
      .ok ⟨true, ⟨true, msg, b58_encode (derive_pub sk)⟩⟩ := by
    simp [verify_message, extract_json, hmsg, hsig_ns, hpk_ns, hpk_v, hsig_v, hpk_parse,
      hsigenc_dec, hsig_len, signature_try_from, hvt]
  exact ⟨hsign, hverify⟩

/-- C3 witness: the all-zeros 32-byte secret half and the message "Hi". -/
theorem claim_c3_witness :
    sign_message (some ⟨some (str "Hi"),
        some (b58_encode (List.replicate 32 0 ++ derive_pub (List.replicate 32 0)))⟩) =
      .ok ⟨true, ⟨b64_encode (mk_sig (derive_pub (List.replicate 32 0)) (str "Hi")),
        b58_encode (derive_pub (List.replicate 32 0)), str "Hi"⟩⟩ ∧
    verify_message (some ⟨some (str "Hi"),
        some (b64_encode (mk_sig (derive_pub (List.replicate 32 0)) (str "Hi"))),
        some (b58_encode (derive_pub (List.replicate 32 0)))⟩) =
      .ok ⟨true, ⟨true, str "Hi", b58_encode (derive_pub (List.replicate 32 0))⟩⟩ :=
  claim_c3 (List.replicate 32 0) (str "Hi") (by decide) (by decide) (by decide)

end SolSvc
